import Mathlib

/-!
# RSS item model of `src/rss.h`

A shallow embedding of `RssItem` (qBittorrent, `src/rss.h`): the permissive
RFC 822 style date parser `parseDate`, the two constructors, and the
`toHash` / `fromHash` pair, followed by theorems about them.

Qt types are modelled by plain data:
* a `QString` used as text is a `List Char`; a `QString` held in a field, where
  the null string matters, is an `Option String` (`none` is `QString::null`);
* `QStringList` is a `List (List Char)`; an out-of-range `operator[]` is a
  `Fault`;
* `int` is `Int` (no value in this code comes near 32 bits);
* a `QDateTime` is `Option DateTime`, `none` being the null `QDateTime()`.
-/

namespace Rss

/-! ## Characters -/

/-- Membership of a code point in one of a list of inclusive ranges. -/
def inRanges (n : Nat) : List (Nat × Nat) → Bool
  | [] => false
  | (lo, hi) :: rest => (decide (lo ≤ n) && decide (n ≤ hi)) || inRanges n rest

/-- Model of `QChar::isSpace()` (Unicode 5.0): the controls U+0009..U+000D and the Unicode separator
categories Zs, Zl and Zp. -/
def qIsSpace (c : Char) : Bool :=
  inRanges c.toNat
    [(9, 13), (0x20, 0x20), (0xA0, 0xA0), (0x1680, 0x1680), (0x180E, 0x180E),
     (0x2000, 0x200A), (0x2028, 0x2029), (0x202F, 0x202F), (0x205F, 0x205F),
     (0x3000, 0x3000)]

/-- Model of `QChar::isDigit()`: Unicode 5.0 category Nd, on the Basic Multilingual Plane (a
`QChar` is one UTF-16 unit, so no character outside it is a digit). -/
def qIsDigit (c : Char) : Bool :=
  inRanges c.toNat
    [(0x30, 0x39), (0x660, 0x669), (0x6F0, 0x6F9), (0x7C0, 0x7C9), (0x966, 0x96F),
     (0x9E6, 0x9EF), (0xA66, 0xA6F), (0xAE6, 0xAEF), (0xB66, 0xB6F), (0xBE6, 0xBEF),
     (0xC66, 0xC6F), (0xCE6, 0xCEF), (0xD66, 0xD6F), (0xE50, 0xE59), (0xED0, 0xED9),
     (0xF20, 0xF29), (0x1040, 0x1049), (0x17E0, 0x17E9), (0x1810, 0x1819),
     (0x1946, 0x194F), (0x19D0, 0x19D9), (0x1B50, 0x1B59), (0xFF10, 0xFF19)]

/-- An ASCII decimal digit. -/
def isAsciiDigit (c : Char) : Bool :=
  decide (48 ≤ c.toNat) && decide (c.toNat ≤ 57)

/-- The character classes that occur in the three expressions of `parseDate`. -/
inductive CharClass where
  /-- The class `[A-Z]`. -/
  | upper
  /-- The class `[a-z]`. -/
  | lower
  /-- The class `\d`. -/
  | digit
  /-- The class `\s`. -/
  | space
  /-- The class `\S`. -/
  | nonSpace
  /-- The class `[^-\s]`. -/
  | notDashSpace
  /-- The class `[+-]`. -/
  | sign
  /-- A literal character. -/
  | lit (c : Char)
  deriving DecidableEq, Repr

/-- Whether a character belongs to a class. -/
def CharClass.test : CharClass → Char → Bool
  | .upper, c => decide (65 ≤ c.toNat) && decide (c.toNat ≤ 90)
  | .lower, c => decide (97 ≤ c.toNat) && decide (c.toNat ≤ 122)
  | .digit, c => qIsDigit c
  | .space, c => qIsSpace c
  | .nonSpace, c => !qIsSpace c
  | .notDashSpace, c => !(decide (c = '-') || qIsSpace c)
  | .sign, c => decide (c = '+') || decide (c = '-')
  | .lit d, c => decide (c = d)

/-! ## Regular expressions (`QRegExp`) -/

/-- The fragment of `QRegExp` syntax used by `parseDate`. Every quantifier in
the source applies to a single character class, except `(?: ... )?`. -/
inductive Re where
  /-- The anchor `^`. -/
  | bol
  /-- The anchor `$`. -/
  | eol
  /-- A class repeated between `lo` and `hi` times (`none`: unbounded), greedy -/
  | rep (cls : CharClass) (lo : Nat) (hi : Option Nat)
  /-- Concatenation. -/
  | seq (a b : Re)
  /-- Alternation `a|b`. -/
  | alt (a b : Re)
  /-- The optional group `(?:a)?`. -/
  | opt (a : Re)
  /-- Capturing group number `n`. -/
  | cap (n : Nat) (a : Re)
  deriving Repr

/-- Concatenation of a list of expressions. -/
def Re.cat : List Re → Re
  | [] => .rep (.lit ' ') 0 (some 0)
  | [r] => r
  | r :: rs => .seq r (Re.cat rs)

/-- One character of a class. -/
def Re.one (c : CharClass) : Re := .rep c 1 (some 1)

/-- The repetition `c+`. -/
def Re.plus (c : CharClass) : Re := .rep c 1 none

/-- The repetition `c*`. -/
def Re.star (c : CharClass) : Re := .rep c 0 none

/-- A literal character. -/
def Re.chr (c : Char) : Re := .rep (.lit c) 1 (some 1)

/-- Whether a repetition may take one more character after `n`. -/
def belowMax (n : Nat) : Option Nat → Bool
  | none => true
  | some hi => decide (n < hi)

/-- All the ways a greedy repetition of a class can match a prefix of `s`,
longest first, given as the remaining input; `n` characters are already
taken. -/
def matchRep (cls : CharClass) (lo : Nat) (hi : Option Nat) :
    Nat → List Char → List (List Char)
  | n, [] => if lo ≤ n then [[]] else []
  | n, c :: cs =>
    (if belowMax n hi && cls.test c then matchRep cls lo hi (n + 1) cs else [])
      ++ (if lo ≤ n then [c :: cs] else [])

/-- The captured texts, by group number (index 0 is filled in at the end). -/
abbrev Caps := List (List Char)

/-- All the ways `r` can match a prefix of `s`, in the order a backtracking
matcher tries them. `atStart` tells whether `s` begins at offset 0 of the
subject; each result is the remaining input and the updated captures. -/
def Re.run : Re → Bool → List Char → Caps → List (List Char × Caps)
  | .bol, atStart, s, caps => if atStart then [(s, caps)] else []
  | .eol, _, s, caps => if s.isEmpty then [(s, caps)] else []
  | .rep cls lo hi, _, s, caps => (matchRep cls lo hi 0 s).map (fun rest => (rest, caps))
  | .seq a b, atStart, s, caps =>
    (a.run atStart s caps).flatMap
      (fun p => b.run (atStart && decide (p.1.length = s.length)) p.1 p.2)
  | .alt a b, atStart, s, caps => a.run atStart s caps ++ b.run atStart s caps
  | .opt a, atStart, s, caps => a.run atStart s caps ++ [(s, caps)]
  | .cap n a, atStart, s, caps =>
    (a.run atStart s caps).map
      (fun p => (p.1, p.2.set n (s.take (s.length - p.1.length))))

/-- A compiled expression: its syntax and its number of capturing groups. -/
structure QRegExp where
  re : Re
  groups : Nat

/-- The match of an expression at one offset: `capturedTexts()` if it matches
there. Element 0 is the whole match. -/
def QRegExp.matchHere (rx : QRegExp) (atStart : Bool) (s : List Char) : Option Caps :=
  match rx.re.run atStart s (List.replicate (rx.groups + 1) []) with
  | [] => none
  | p :: _ => some (p.2.set 0 (s.take (s.length - p.1.length)))

/-- The search of `QString::indexOf(QRegExp)` from offset `i`: the first offset
at which the expression matches, with the captured texts. -/
def QRegExp.searchFrom (rx : QRegExp) : Nat → List Char → Option (Nat × Caps)
  | i, [] => (rx.matchHere (decide (i = 0)) []).map (fun c => (i, c))
  | i, c :: cs =>
    match rx.matchHere (decide (i = 0)) (c :: cs) with
    | some caps => some (i, caps)
    | none => rx.searchFrom (i + 1) cs

/-- The call `str.indexOf(rx)`: the offset of the first match, or -1. -/
def QRegExp.indexOf (rx : QRegExp) (str : List Char) : Int :=
  match rx.searchFrom 0 str with
  | some (i, _) => (i : Int)
  | none => -1

/-- The call `rx.capturedTexts()` after `str.indexOf(rx)`. Without a match every text is
empty. -/
def QRegExp.capturedTexts (rx : QRegExp) (str : List Char) : Caps :=
  match rx.searchFrom 0 str with
  | some (_, caps) => caps
  | none => List.replicate (rx.groups + 1) []

/-- The modern form,
`^(?:([A-Z][a-z]+),\s*)?(\d{1,2})(\s+|-)([^-\s]+)(\s+|-)(\d{2,4})\s+(\d\d):(\d\d)(?::(\d\d))?\s+(\S+)$`. -/
def rxModern : QRegExp where
  groups := 10
  re := Re.cat
    [ .bol,
      .opt (Re.cat [.cap 1 (.seq (Re.one .upper) (Re.plus .lower)), Re.chr ',', Re.star .space]),
      .cap 2 (.rep .digit 1 (some 2)),
      .cap 3 (.alt (Re.plus .space) (Re.chr '-')),
      .cap 4 (Re.plus .notDashSpace),
      .cap 5 (.alt (Re.plus .space) (Re.chr '-')),
      .cap 6 (.rep .digit 2 (some 4)),
      Re.plus .space,
      .cap 7 (.seq (Re.one .digit) (Re.one .digit)),
      Re.chr ':',
      .cap 8 (.seq (Re.one .digit) (Re.one .digit)),
      .opt (.seq (Re.chr ':') (.cap 9 (.seq (Re.one .digit) (Re.one .digit)))),
      Re.plus .space,
      .cap 10 (Re.plus .nonSpace),
      .eol ]

/-- The obsolete form,
`^([A-Z][a-z]+)\s+(\S+)\s+(\d\d)\s+(\d\d):(\d\d):(\d\d)\s+(\d\d\d\d)$`. -/
def rxObsolete : QRegExp where
  groups := 7
  re := Re.cat
    [ .bol,
      .cap 1 (.seq (Re.one .upper) (Re.plus .lower)),
      Re.plus .space,
      .cap 2 (Re.plus .nonSpace),
      Re.plus .space,
      .cap 3 (.seq (Re.one .digit) (Re.one .digit)),
      Re.plus .space,
      .cap 4 (.seq (Re.one .digit) (Re.one .digit)),
      Re.chr ':',
      .cap 5 (.seq (Re.one .digit) (Re.one .digit)),
      Re.chr ':',
      .cap 6 (.seq (Re.one .digit) (Re.one .digit)),
      Re.plus .space,
      .cap 7 (Re.cat [Re.one .digit, Re.one .digit, Re.one .digit, Re.one .digit]),
      .eol ]

/-- The numeric zone, `^([+-])(\d\d)(\d\d)$`. -/
def rxOffset : QRegExp where
  groups := 3
  re := Re.cat
    [ .bol,
      .cap 1 (Re.one .sign),
      .cap 2 (.seq (Re.one .digit) (Re.one .digit)),
      .cap 3 (.seq (Re.one .digit) (Re.one .digit)),
      .eol ]

/-! ## Qt value types -/

/-- The failure of a `QList::operator[]` whose index is out of range. -/
inductive Fault where
  | indexOutOfRange
  deriving DecidableEq, Repr

deriving instance DecidableEq for Except

/-- The read `parts[i]` on a `QStringList`. -/
def partAt (parts : List (List Char)) (i : Nat) : Except Fault (List Char) :=
  match parts.get? i with
  | some p => .ok p
  | none => .error .indexOutOfRange

/-- The value of a string of ASCII digits, most significant first, on top of
`acc`. -/
def digitsValue : Int → List Char → Int
  | acc, [] => acc
  | acc, c :: cs => digitsValue (acc * 10 + ((c.toNat : Int) - 48)) cs

/-- Model of `QString::toInt(&ok)` on the texts `parseDate` passes to it. They are made
of `\d` characters only (no sign, no blank, at most four characters), and on
those the conversion, which is done in the C locale, succeeds exactly when
every character is an ASCII digit; `none` is `ok == false`. -/
def toInt (s : List Char) : Option Int :=
  if !s.isEmpty && s.all isAsciiDigit then some (digitsValue 0 s) else none

/-- Model of `QString::trimmed()`: drop the leading and the trailing white space. -/
def trimmed (s : List Char) : List Char :=
  ((s.dropWhile qIsSpace).reverse.dropWhile qIsSpace).reverse

/-- Model of `QString::toLatin1()`: a character above U+00FF becomes `?`; one outside
the Basic Multilingual Plane is two UTF-16 units, so two `?`. -/
def toLatin1 : List Char → List Nat
  | [] => []
  | c :: cs =>
    (if c.toNat < 0x100 then [c.toNat] else if c.toNat < 0x10000 then [63] else [63, 63])
      ++ toLatin1 cs

/-- The function `isalpha` of the C library on a byte, in the C locale. -/
def isalpha (b : Nat) : Bool :=
  (decide (65 ≤ b) && decide (b ≤ 90)) || (decide (97 ≤ b) && decide (b ≤ 122))

/-- The function `toupper` of the C library on a byte, in the C locale. -/
def toupper (b : Nat) : Nat :=
  if 97 ≤ b ∧ b ≤ 122 then b - 32 else b

/-- The bytes of a C string literal. -/
def cstr (s : String) : List Nat := s.toList.map Char.toNat

/-- Model of `QDate::isLeapYear` (Qt 4.5 and later). -/
def isLeapYear (y : Int) : Bool :=
  if y < 1582 then
    (if y < 1 then y + 1 else y).tmod 4 == 0
  else
    (y.tmod 4 == 0 && y.tmod 100 != 0) || y.tmod 400 == 0

/-- The table `monthDays` of `qdatetime.cpp`. -/
def monthDays : List Int := [0, 31, 28, 31, 30, 31, 30, 31, 31, 30, 31, 30, 31]

/-- Model of `QDate::isValid(year, month, day)`: Julian calendar up to 4 October 1582,
Gregorian from 15 October 1582, no year 0, nothing before 2 January 4713 BC. -/
def dateIsValid (year month day : Int) : Bool :=
  if year < -4713 || (year == -4713 && (month < 1 || (month == 1 && day < 2))) || year == 0 then
    false
  else if year == 1582 && month == 10 && day > 4 && day < 15 then
    false
  else
    (day > 0 && month > 0 && month <= 12) &&
      (day <= monthDays.getD month.toNat 0 || (day == 29 && month == 2 && isLeapYear year))

/-- The function `julianDayFromGregorianDate` of `qdatetime.cpp` (Fliegel and Van Flandern). -/
def julianDayFromGregorianDate (year month day : Int) : Int :=
  (1461 * (year + 4800 + (month - 14).tdiv 12)).tdiv 4
    + (367 * (month - 2 - 12 * ((month - 14).tdiv 12))).tdiv 12
    - (3 * ((year + 4900 + (month - 14).tdiv 12).tdiv 100)).tdiv 4
    + day - 32075

/-- The function `julianDayFromDate` of `qdatetime.cpp`. -/
def julianDayFromDate (year0 month day : Int) : Int :=
  let year := if year0 < 0 then year0 + 1 else year0
  if year > 1582 || (year == 1582 && (month > 10 || (month == 10 && day >= 15))) then
    julianDayFromGregorianDate year month day
  else if year < 1582 || (year == 1582 && (month < 10 || (month == 10 && day <= 4))) then
    let a := (14 - month).tdiv 12
    (153 * (month + 12 * a - 3) + 2).tdiv 5 + (1461 * (year + 4800 - a)).tdiv 4 + day - 32083
  else
    0

/-- A valid `QDate`, by its calendar fields (`year()`, `month()`, `day()`). -/
structure QDate where
  year : Int
  month : Int
  day : Int
  deriving DecidableEq, Repr

/-- The constructor `QDate(y, m, d)`; `none` is the invalid date. -/
def QDate.make (y m d : Int) : Option QDate :=
  if dateIsValid y m d then some ⟨y, m, d⟩ else none

/-- The Julian day number of a date. -/
def QDate.toJulianDay (d : QDate) : Int := julianDayFromDate d.year d.month d.day

/-- Model of `QDate::dayOfWeek()`: 1 is Monday, 7 is Sunday. -/
def QDate.dayOfWeek (d : QDate) : Int := d.toJulianDay.tmod 7 + 1

/-- A valid `QTime` (milliseconds are always 0 here). -/
structure QTime where
  hour : Int
  minute : Int
  second : Int
  deriving DecidableEq, Repr

/-- The constructor `QTime(h, m, s)`; `none` is the invalid time. -/
def QTime.make (h m s : Int) : Option QTime :=
  if 0 ≤ h ∧ h < 24 ∧ 0 ≤ m ∧ m < 60 ∧ 0 ≤ s ∧ s < 60 then some ⟨h, m, s⟩ else none

/-- The type `Qt::TimeSpec`, as far as this code uses it. -/
inductive TimeSpec where
  | LocalTime
  | UTC
  deriving DecidableEq, Repr

/-- A valid `QDateTime`. -/
structure DateTime where
  date : QDate
  time : QTime
  spec : TimeSpec
  deriving DecidableEq, Repr

/-- A `QDateTime`: `none` is the null (absent) value `QDateTime()`. -/
abbrev QDateTime := Option DateTime

/-- Seconds from Julian day 0, 00:00:00 to the written date and time of a
timestamp, whatever its time specification. -/
def DateTime.writtenSeconds (t : DateTime) : Int :=
  t.date.toJulianDay * 86400 + t.time.hour * 3600 + t.time.minute * 60 + t.time.second

/-- The instant a timestamp denotes, in UTC seconds from Julian day 0: a UTC
timestamp is its written value; a local-time one is displaced by the offset of
the zone of the machine, `localOffset` seconds east of UTC. -/
def DateTime.utcSeconds (localOffset : Int) (t : DateTime) : Int :=
  match t.spec with
  | .UTC => t.writtenSeconds
  | .LocalTime => t.writtenSeconds - localOffset

/-! ## `RssItem::parseDate` -/

/-- The table `shortDay`. -/
def shortDay : List String := ["Mon", "Tue", "Wed", "Thu", "Fri", "Sat", "Sun"]

/-- The table `longDay`. -/
def longDay : List String :=
  ["Monday", "Tuesday", "Wednesday", "Thursday", "Friday", "Saturday", "Sunday"]

/-- The table `shortMonth`. -/
def shortMonth : List String :=
  ["Jan", "Feb", "Mar", "Apr", "May", "Jun", "Jul", "Aug", "Sep", "Oct", "Nov", "Dec"]

/-- The table `longMonth` (declared, never read). -/
def longMonth : List String :=
  ["January", "February", "March", "April", "May", "June",
   "July", "August", "September", "October", "November", "December"]

/-- The loop `for (i = 0; i < n && table[i] != text; ++i) ;`: the index of the
first entry equal to `text`, or the length of the table. -/
def scanTable (text : List Char) : List String → Nat
  | [] => 0
  | name :: rest => if name.toList = text then 0 else scanTable text rest + 1

/-- The indexes of the fields within the captured texts. -/
structure Layout where
  nyear : Nat
  nmonth : Nat
  nday : Nat
  nwday : Nat
  nhour : Nat
  nmin : Nat
  nsec : Nat
  deriving DecidableEq, Repr

/-- The indexes for the modern form. -/
def modernLayout : Layout :=
  { nyear := 6, nmonth := 4, nday := 2, nwday := 1, nhour := 7, nmin := 8, nsec := 9 }

/-- The indexes for the obsolete form. -/
def obsoleteLayout : Layout :=
  { nyear := 7, nmonth := 2, nday := 3, nwday := 1, nhour := 4, nmin := 5, nsec := 6 }

/-- Lines 131-161: which dialect the trimmed text is written in. `none` is the
early `return QDateTime()`. -/
def recognise (str : List Char) : Except Fault (Option (Layout × List (List Char))) :=
  if rxModern.indexOf str = 0 then
    let parts := rxModern.capturedTexts str
    (partAt parts 3).bind fun p3 =>
    (partAt parts 5).bind fun p5 =>
    let h1 := decide (p3 = ['-'])
    let h2 := decide (p5 = ['-'])
    if h1 != h2 then .ok none else .ok (some (modernLayout, parts))
  else if rxObsolete.indexOf str ≠ 0 then
    .ok none
  else
    .ok (some (obsoleteLayout, rxObsolete.capturedTexts str))

/-- The numbers and names read off the captured texts. -/
structure Fields where
  day : Int
  year : Int
  hour : Int
  minute : Int
  second : Int
  leapSecond : Bool
  month : Nat
  dayOfWeek : Int
  deriving DecidableEq, Repr

/-- Lines 190-194: the year, given the number of characters it is written
with. -/
def adjustYear (i : Nat) (year : Int) : Int :=
  if i < 4 then year + (if i = 2 ∧ year < 50 then 2000 else 1900) else year

/-- Lines 180-186: the weekday name, -1 without one, 7 for an unknown one. -/
def lookupWeekday (wday : List Char) : Int :=
  if wday.isEmpty then -1
  else
    let dayOfWeek := scanTable wday shortDay
    if dayOfWeek ≥ 7 then (scanTable wday longDay : Int) else (dayOfWeek : Int)

/-- Lines 162-194: the fields. `none` is an early `return QDateTime()`. -/
def readFields (n : Layout) (parts : List (List Char)) : Except Fault (Option Fields) :=
  (partAt parts n.nday).bind fun pday =>
  (partAt parts n.nyear).bind fun pyear =>
  (partAt parts n.nhour).bind fun phour =>
  (partAt parts n.nmin).bind fun pmin =>
  match toInt pday, toInt pyear, toInt phour, toInt pmin with
  | some day, some year, some hour, some minute =>
    (partAt parts n.nsec).bind fun psec =>
    match (if psec.isEmpty then some 0 else toInt psec) with
    | none => .ok none
    | some second0 =>
      let leapSecond := decide (second0 = 60)
      let second := if leapSecond then 59 else second0
      (partAt parts n.nmonth).bind fun pmonth =>
      let month := scanTable pmonth shortMonth
      (partAt parts n.nwday).bind fun pwday =>
      let dayOfWeek := lookupWeekday pwday
      .ok (some
        { day := day, year := adjustYear pyear.length year, hour := hour, minute := minute,
          second := second, leapSecond := leapSecond, month := month,
          dayOfWeek := dayOfWeek })
  | _, _, _, _ => .ok none

/-- The zone as resolved by lines 196-236. -/
structure Zone where
  offset : Int
  negOffset : Bool
  deriving DecidableEq, Repr

/-- Lines 218-223: the offsets of the named North American zones, 0 for any
other name. -/
def namedOffset (zone : List Nat) : Int :=
  if zone = cstr "EDT" then -4 * 3600
  else if zone = cstr "EST" ∨ zone = cstr "CDT" then -5 * 3600
  else if zone = cstr "CST" ∨ zone = cstr "MDT" then -6 * 3600
  else if zone = cstr "MST" ∨ zone = cstr "PDT" then -7 * 3600
  else if zone = cstr "PST" then -8 * 3600
  else 0

/-- Lines 213-234: an obsolete time zone name. -/
def resolveZoneName (text : List Char) : Option Zone :=
  let zone := toLatin1 text
  if zone.length = 1 ∧ isalpha (zone.getD 0 0) = true ∧ toupper (zone.getD 0 0) ≠ 74 then
    some { offset := 0, negOffset := true }
  else if zone ≠ cstr "UT" ∧ zone ≠ cstr "GMT" then
    let offset := namedOffset zone
    if offset = 0 then
      if zone.any (fun b => !isalpha b) then none
      else some { offset := offset, negOffset := true }
    else some { offset := offset, negOffset := false }
  else some { offset := 0, negOffset := false }

/-- Lines 196-236: the UTC offset part. `none` is an early
`return QDateTime()`. -/
def resolveZone (parts : List (List Char)) : Except Fault (Option Zone) :=
  if parts.length > 10 then
    (partAt parts 10).bind fun zoneText =>
    if rxOffset.indexOf zoneText = 0 then
      let parts := rxOffset.capturedTexts zoneText
      (partAt parts 2).bind fun p2 =>
      (partAt parts 3).bind fun p3 =>
      match toInt p2, toInt p3 with
      | some hh, some offsetMin =>
        if offsetMin > 59 then .ok none
        else
          let offset := hh * 3600 + offsetMin * 60
          (partAt parts 1).bind fun p1 =>
          let negOffset := decide (p1 = ['-'])
          .ok (some { offset := if negOffset then -offset else offset, negOffset := negOffset })
      | _, _ => .ok none
    else
      .ok (resolveZoneName zoneText)
  else
    .ok (some { offset := 0, negOffset := false })

/-- Lines 237-253: the date and time, checked. -/
def assemble (f : Fields) (z : Zone) : QDateTime :=
  match QDate.make f.year ((f.month : Int) + 1) f.day with
  | none => none
  | some qdate =>
    match QTime.make f.hour f.minute f.second with
    | none => none
    | some qtime =>
      if f.dayOfWeek ≥ 0 ∧ qdate.dayOfWeek ≠ f.dayOfWeek + 1 then none
      else
        let result : DateTime :=
          { date := qdate, time := qtime,
            spec := if z.offset = 0 then .UTC else .LocalTime }
        if f.leapSecond ∧
            (f.hour * 3600 + f.minute * 60 + 60 - z.offset + 86400 * 5).tmod 86400 ≠ 0 then
          none
        else some result

/-- Lines 162-253: what `parseDate` does once a dialect is recognised. -/
def afterMatch (n : Layout) (parts : List (List Char)) : Except Fault QDateTime :=
  (readFields n parts).bind fun f =>
    match f with
    | none => .ok none
    | some fields =>
      (resolveZone parts).bind fun z =>
        match z with
        | none => .ok none
        | some zone => .ok (assemble fields zone)

/-- The body of `RssItem::parseDate`, on the characters of the text. -/
def parseDateChars (string : List Char) : Except Fault QDateTime :=
  let str := trimmed string
  if str.isEmpty then .ok none
  else
    (recognise str).bind fun r =>
    match r with
    | none => .ok none
    | some (n, parts) => afterMatch n parts

/-- The member function `RssItem::parseDate`. -/
def parseDate (string : String) : Except Fault QDateTime :=
  parseDateChars string.toList

/-! ## `QCryptographicHash::hash(..., Md5)` (RFC 1321) -/

/-- The per-round shift amounts. -/
def md5Shifts : List Nat :=
  [7, 12, 17, 22, 7, 12, 17, 22, 7, 12, 17, 22, 7, 12, 17, 22,
   5, 9, 14, 20, 5, 9, 14, 20, 5, 9, 14, 20, 5, 9, 14, 20,
   4, 11, 16, 23, 4, 11, 16, 23, 4, 11, 16, 23, 4, 11, 16, 23,
   6, 10, 15, 21, 6, 10, 15, 21, 6, 10, 15, 21, 6, 10, 15, 21]

/-- The sine table. -/
def md5Table : List Nat :=
  [0xd76aa478, 0xe8c7b756, 0x242070db, 0xc1bdceee,
   0xf57c0faf, 0x4787c62a, 0xa8304613, 0xfd469501,
   0x698098d8, 0x8b44f7af, 0xffff5bb1, 0x895cd7be,
   0x6b901122, 0xfd987193, 0xa679438e, 0x49b40821,
   0xf61e2562, 0xc040b340, 0x265e5a51, 0xe9b6c7aa,
   0xd62f105d, 0x02441453, 0xd8a1e681, 0xe7d3fbc8,
   0x21e1cde6, 0xc33707d6, 0xf4d50d87, 0x455a14ed,
   0xa9e3e905, 0xfcefa3f8, 0x676f02d9, 0x8d2a4c8a,
   0xfffa3942, 0x8771f681, 0x6d9d6122, 0xfde5380c,
   0xa4beea44, 0x4bdecfa9, 0xf6bb4b60, 0xbebfbc70,
   0x289b7ec6, 0xeaa127fa, 0xd4ef3085, 0x04881d05,
   0xd9d4d039, 0xe6db99e5, 0x1fa27cf8, 0xc4ac5665,
   0xf4292244, 0x432aff97, 0xab9423a7, 0xfc93a039,
   0x655b59c3, 0x8f0ccc92, 0xffeff47d, 0x85845dd1,
   0x6fa87e4f, 0xfe2ce6e0, 0xa3014314, 0x4e0811a1,
   0xf7537e82, 0xbd3af235, 0x2ad7d2bb, 0xeb86d391]

/-- Rotation of a 32-bit word to the left. -/
def rotl32 (x c : Nat) : Nat :=
  ((x <<< c) ||| (x >>> (32 - c))) % 2 ^ 32

/-- Complement of a 32-bit word. -/
def not32 (x : Nat) : Nat := x ^^^ 0xffffffff

/-- The four chaining words. -/
structure Md5State where
  a : Nat
  b : Nat
  c : Nat
  d : Nat
  deriving DecidableEq, Repr

/-- One of the 64 operations on the block `m` of sixteen words. -/
def md5Step (m : List Nat) (st : Md5State) (i : Nat) : Md5State :=
  let f :=
    if i < 16 then (st.b &&& st.c) ||| (not32 st.b &&& st.d)
    else if i < 32 then (st.d &&& st.b) ||| (not32 st.d &&& st.c)
    else if i < 48 then st.b ^^^ st.c ^^^ st.d
    else st.c ^^^ (st.b ||| not32 st.d)
  let g :=
    if i < 16 then i
    else if i < 32 then (5 * i + 1) % 16
    else if i < 48 then (3 * i + 5) % 16
    else (7 * i) % 16
  let f := (f + st.a + md5Table.getD i 0 + m.getD g 0) % 2 ^ 32
  { a := st.d, d := st.c, c := st.b, b := (st.b + rotl32 f (md5Shifts.getD i 0)) % 2 ^ 32 }

/-- A little-endian 32-bit word from four bytes. -/
def wordOfBytes (bs : List Nat) : Nat :=
  bs.getD 0 0 + bs.getD 1 0 * 2 ^ 8 + bs.getD 2 0 * 2 ^ 16 + bs.getD 3 0 * 2 ^ 24

/-- The `n` little-endian bytes of a number. -/
def bytesOfNat : Nat → Nat → List Nat
  | 0, _ => []
  | n + 1, x => x % 256 :: bytesOfNat n (x / 256)

/-- The sixteen words of a 64-byte block. -/
def md5Words (block : List Nat) : List Nat :=
  (List.range 16).map fun j => wordOfBytes (block.drop (4 * j))

/-- The compression of one block into the state. -/
def md5Block (st : Md5State) (block : List Nat) : Md5State :=
  let r := (List.range 64).foldl (md5Step (md5Words block)) st
  { a := (st.a + r.a) % 2 ^ 32, b := (st.b + r.b) % 2 ^ 32,
    c := (st.c + r.c) % 2 ^ 32, d := (st.d + r.d) % 2 ^ 32 }

/-- The compression of `n` successive blocks of the padded message. -/
def md5Blocks : Nat → Md5State → List Nat → Md5State
  | 0, st, _ => st
  | n + 1, st, bytes => md5Blocks n (md5Block st (bytes.take 64)) (bytes.drop 64)

/-- The message followed by its padding: 0x80, zeros up to 56 modulo 64, and
the bit length on eight bytes. -/
def md5Pad (msg : List Nat) : List Nat :=
  msg ++ [0x80] ++ List.replicate ((119 - msg.length % 64) % 64) 0
    ++ bytesOfNat 8 ((msg.length * 8) % 2 ^ 64)

/-- The MD5 digest of a byte string, sixteen bytes. -/
def md5 (msg : List Nat) : List Nat :=
  let padded := md5Pad msg
  let st := md5Blocks (padded.length / 64)
    { a := 0x67452301, b := 0xefcdab89, c := 0x98badcfe, d := 0x10325476 } padded
  bytesOfNat 4 st.a ++ bytesOfNat 4 st.b ++ bytesOfNat 4 st.c ++ bytesOfNat 4 st.d

/-! ## `RssItem` -/

/-- A `QString` held in a field: `none` is the null string. -/
abbrev QString := Option String

/-- Model of `QString::isEmpty()`. -/
def QString.isEmpty (s : QString) : Bool :=
  match s with
  | none => true
  | some t => t.toList.isEmpty

/-- Model of `QString::isNull()`. -/
def QString.isNull (s : QString) : Bool := s.isNone

/-- The UTF-8 bytes of one character. -/
def utf8Bytes (n : Nat) : List Nat :=
  if n < 0x80 then [n]
  else if n < 0x800 then [0xC0 + n / 64, 0x80 + n % 64]
  else if n < 0x10000 then [0xE0 + n / 4096, 0x80 + n / 64 % 64, 0x80 + n % 64]
  else [0xF0 + n / 262144, 0x80 + n / 4096 % 64, 0x80 + n / 64 % 64, 0x80 + n % 64]

/-- Model of `QString::toLocal8Bit()`, for a locale whose codec is UTF-8 (on text within
ASCII every usual codec gives these bytes). The null string has no bytes. -/
def toLocal8Bit (s : QString) : List Nat :=
  match s with
  | none => []
  | some t => t.toList.flatMap fun c => utf8Bytes c.toNat

/-- The conversion of a byte array to a `QString` (`QString::fromAscii`, with
no codec for C strings set): the Latin-1 text of the bytes before the first
zero byte. -/
def fromAscii (bytes : List Nat) : QString :=
  some (String.mk ((bytes.takeWhile fun b => b != 0).map Char.ofNat))

/-- Lines 295 and 306: the hash assigned from the title. -/
def titleHash (title : QString) : QString :=
  fromAscii (md5 (toLocal8Bit title))

/-- The data members of `RssItem`. -/
structure RssItem where
  title : QString
  torrent_url : QString
  news_link : QString
  description : QString
  date : QDateTime
  author : QString
  hash : QString
  is_valid : Bool
  read : Bool
  deriving DecidableEq, Repr

/-- A child node of a document fragment. Of an element the constructor reads
the tag name, the attributes and the text; a node that is not an element
(comment, text) ends the walk, as `toElement()` is then null. -/
inductive QDomNode where
  | element (tagName : String) (attributes : List (String × String)) (text : String)
  | other
  deriving DecidableEq, Repr

/-- Model of `QDomElement::attribute(name, defValue)`. -/
def attributeValue (attributes : List (String × String)) (name : String) (defValue : QString) :
    QString :=
  match attributes.lookup name with
  | some v => some v
  | none => defValue

/-- The members as the fragment constructor sets them before its loop (lines
258-262); members it does not mention are default-constructed. -/
def RssItem.initial : RssItem :=
  { title := none, torrent_url := none, news_link := none, description := none,
    date := none, author := none, hash := none, is_valid := false, read := false }

/-- The loop of lines 264-294 over the child nodes. The Boolean tells whether
the loop ran to its end (`true`) or the constructor returned from inside it. -/
def RssItem.walk : RssItem → List QDomNode → Except Fault (Bool × RssItem)
  | item, [] => .ok (true, item)
  | item, .other :: _ => .ok (true, item)
  | item, .element tagName attributes text :: rest =>
    if tagName = "title" then
      let item := { item with title := some text }
      if item.title.isEmpty then .ok (false, { item with is_valid := false })
      else
        RssItem.walk (if !item.torrent_url.isEmpty then { item with is_valid := true } else item)
          rest
    else if tagName = "enclosure" then
      if attributeValue attributes "type" (some "") = some "application/x-bittorrent" then
        let item := { item with torrent_url := attributeValue attributes "url" none }
        if item.torrent_url.isNull then .ok (false, item)
        else
          RssItem.walk (if !item.title.isEmpty then { item with is_valid := true } else item) rest
      else RssItem.walk item rest
    else if tagName = "link" then
      RssItem.walk { item with news_link := some text } rest
    else if tagName = "description" then
      RssItem.walk { item with description := some text } rest
    else if tagName = "pubDate" then
      (parseDate text).bind fun d => RssItem.walk { item with date := d } rest
    else if tagName = "author" then
      RssItem.walk { item with author := some text } rest
    else RssItem.walk item rest

/-- The constructor `RssItem(const QDomElement& properties)`, on the child nodes
of `properties`. -/
def RssItem.fromElement (children : List QDomNode) : Except Fault RssItem :=
  (RssItem.walk RssItem.initial children).bind fun r =>
    if r.1 then .ok { r.2 with hash := titleHash r.2.title } else .ok r.2

/-- The constructor `RssItem(_title, _torrent_url, _news_link, _description,
_date, _author, _read)`. -/
def RssItem.fromFields (_title _torrent_url _news_link _description : QString)
    (_date : QDateTime) (_author : QString) (_read : Bool) : RssItem :=
  { title := _title, torrent_url := _torrent_url, news_link := _news_link,
    description := _description, date := _date, author := _author, read := _read,
    is_valid := !_title.isEmpty && !_torrent_url.isEmpty,
    hash := titleHash _title }

/-- A `QVariant`, as `toHash` fills it. -/
inductive QVariant where
  | invalid
  | string (s : QString)
  | dateTime (d : QDateTime)
  | bool (b : Bool)
  deriving DecidableEq, Repr

/-- Model of `QVariant::toString()`. The conversion of a variant of another type is not
modelled (`none`). -/
def QVariant.toString : QVariant → Option QString
  | .invalid => some none
  | .string s => some s
  | _ => none

/-- Model of `QVariant::toDateTime()`. The conversion of a variant of another type is
not modelled (`none`). -/
def QVariant.toDateTime : QVariant → Option QDateTime
  | .invalid => some none
  | .dateTime d => some d
  | _ => none

/-- Model of `QVariant::toBool()`. The conversion of a variant of another type is not
modelled (`none`). -/
def QVariant.toBool : QVariant → Option Bool
  | .invalid => some false
  | .bool b => some b
  | _ => none

/-- A `QHash<QString, QVariant>`, as an association list with distinct keys. -/
abbrev QVariantHash := List (String × QVariant)

/-- The assignment `h[key] = value`. -/
def QVariantHash.set : QVariantHash → String → QVariant → QVariantHash
  | [], key, value => [(key, value)]
  | (k, v) :: rest, key, value =>
    if k = key then (k, value) :: rest else (k, v) :: QVariantHash.set rest key value

/-- The read `h[key]`: a default-constructed variant for a missing key. -/
def QVariantHash.get (h : QVariantHash) (key : String) : QVariant :=
  (h.lookup key).getD .invalid

/-- The member function `RssItem::toHash`. -/
def RssItem.toHash (x : RssItem) : QVariantHash :=
  let item : QVariantHash := []
  let item := item.set "title" (.string x.title)
  let item := item.set "torrent_url" (.string x.torrent_url)
  let item := item.set "news_link" (.string x.news_link)
  let item := item.set "description" (.string x.description)
  let item := item.set "date" (.dateTime x.date)
  let item := item.set "author" (.string x.author)
  let item := item.set "read" (.bool x.read)
  item

/-- The static member `RssItem::fromHash`; `none` only when a conversion outside the model is
needed. -/
def RssItem.fromHash (h : QVariantHash) : Option RssItem :=
  (h.get "title").toString.bind fun title =>
  (h.get "torrent_url").toString.bind fun torrent_url =>
  (h.get "news_link").toString.bind fun news_link =>
  (h.get "description").toString.bind fun description =>
  (h.get "date").toDateTime.bind fun date =>
  (h.get "author").toString.bind fun author =>
  (h.get "read").toBool.bind fun read =>
  some (RssItem.fromFields title torrent_url news_link description date author read)

/-! ## Notions used in the statements -/

/-- One fragment is the other with the text of `pubDate` elements changed:
the same nodes in the same order, with the same tag names and attributes, and
the same text except in elements named `pubDate`. -/
def samePubDateApart : List QDomNode → List QDomNode → Bool
  | [], [] => true
  | .other :: as, .other :: bs => samePubDateApart as bs
  | .element t a x :: as, .element t' a' x' :: bs =>
    decide (t = t') && decide (a = a') && (decide (x = x') || decide (t = "pubDate")) &&
      samePubDateApart as bs
  | _, _ => false

/-- The dialect a trimmed text is written in, with the texts captured from it:
the modern expression is tried first, then the obsolete one (lines 139-161,
without the check of the separators). -/
def matchDialect (str : List Char) : Option (Layout × List (List Char)) :=
  if rxModern.indexOf str = 0 then some (modernLayout, rxModern.capturedTexts str)
  else if rxObsolete.indexOf str = 0 then some (obsoleteLayout, rxObsolete.capturedTexts str)
  else none

/-- The names of the zones the code knows: `UT`, `GMT` and the eight North
American abbreviations. -/
def knownZones : List String :=
  ["UT", "GMT", "EDT", "EST", "CDT", "CST", "MDT", "MST", "PDT", "PST"]

/-! ## Captured texts have the length the expression fixes -/

theorem run_caps_length (r : Re) :
    ∀ (atStart : Bool) (s : List Char) (caps : Caps) (p : List Char × Caps),
      p ∈ r.run atStart s caps → p.2.length = caps.length := by
  induction r with
  | bol =>
    intro atStart s caps p hp
    simp only [Re.run] at hp
    split at hp <;> simp_all
  | eol =>
    intro atStart s caps p hp
    simp only [Re.run] at hp
    split at hp <;> simp_all
  | rep cls lo hi =>
    intro atStart s caps p hp
    simp only [Re.run, List.mem_map] at hp
    obtain ⟨rest, _, rfl⟩ := hp
    rfl
  | seq a b iha ihb =>
    intro atStart s caps p hp
    simp only [Re.run, List.mem_flatMap] at hp
    obtain ⟨q, hq, hp⟩ := hp
    rw [ihb _ _ _ _ hp, iha _ _ _ _ hq]
  | alt a b iha ihb =>
    intro atStart s caps p hp
    simp only [Re.run, List.mem_append] at hp
    rcases hp with hp | hp
    · exact iha _ _ _ _ hp
    · exact ihb _ _ _ _ hp
  | opt a iha =>
    intro atStart s caps p hp
    simp only [Re.run, List.mem_append, List.mem_singleton] at hp
    rcases hp with hp | hp
    · exact iha _ _ _ _ hp
    · subst hp; rfl
  | cap n a iha =>
    intro atStart s caps p hp
    simp only [Re.run, List.mem_map] at hp
    obtain ⟨q, hq, rfl⟩ := hp
    simp [iha _ _ _ _ hq]

theorem matchHere_length (rx : QRegExp) (atStart : Bool) (s : List Char) (caps : Caps)
    (h : rx.matchHere atStart s = some caps) : caps.length = rx.groups + 1 := by
  unfold QRegExp.matchHere at h
  split at h
  · cases h
  · next p rest heq =>
    have hp : p ∈ rx.re.run atStart s (List.replicate (rx.groups + 1) []) := by
      rw [heq]; exact List.mem_cons_self _ _
    have := run_caps_length rx.re _ _ _ _ hp
    cases h
    simpa using this

theorem searchFrom_length (rx : QRegExp) :
    ∀ (s : List Char) (i j : Nat) (caps : Caps),
      rx.searchFrom i s = some (j, caps) → caps.length = rx.groups + 1 := by
  intro s
  induction s with
  | nil =>
    intro i j caps h
    simp only [QRegExp.searchFrom, Option.map_eq_some'] at h
    obtain ⟨c, hc, hcj⟩ := h
    cases hcj
    exact matchHere_length rx _ _ _ hc
  | cons c cs ih =>
    intro i j caps h
    simp only [QRegExp.searchFrom] at h
    split at h
    · next caps' heq =>
      cases h
      exact matchHere_length rx _ _ _ heq
    · exact ih _ _ _ h

theorem capturedTexts_length (rx : QRegExp) (str : List Char) :
    (rx.capturedTexts str).length = rx.groups + 1 := by
  unfold QRegExp.capturedTexts
  split
  · next i caps heq => exact searchFrom_length rx _ _ _ _ heq
  · simp

theorem partAt_eq (parts : List (List Char)) (i : Nat) (h : i < parts.length) :
    partAt parts i = .ok (parts.getD i []) := by
  unfold partAt
  rw [List.getD_eq_getElem?_getD, List.get?_eq_getElem?, List.getElem?_eq_getElem h]
  rfl

/-! ## `parseDate` never reads outside the captured texts -/

theorem recognise_cases (str : List Char) :
    recognise str = .ok none ∨
    (rxModern.indexOf str = 0 ∧
      recognise str = .ok (some (modernLayout, rxModern.capturedTexts str))) ∨
    (rxModern.indexOf str ≠ 0 ∧ rxObsolete.indexOf str = 0 ∧
      recognise str = .ok (some (obsoleteLayout, rxObsolete.capturedTexts str))) := by
  have hlen : (rxModern.capturedTexts str).length = 11 := capturedTexts_length rxModern str
  unfold recognise
  by_cases hm : rxModern.indexOf str = 0
  · rw [if_pos hm]
    dsimp only
    rw [partAt_eq _ 3 (by omega), partAt_eq _ 5 (by omega)]
    simp only [Except.bind]
    split
    · exact Or.inl rfl
    · exact Or.inr (Or.inl ⟨hm, rfl⟩)
  · rw [if_neg hm]
    by_cases ho : rxObsolete.indexOf str = 0
    · right; right
      exact ⟨hm, ho, by simp [ho]⟩
    · left
      simp [ho]

theorem readFields_ok (n : Layout) (parts : List (List Char))
    (hday : n.nday < parts.length) (hyear : n.nyear < parts.length)
    (hhour : n.nhour < parts.length) (hmin : n.nmin < parts.length)
    (hsec : n.nsec < parts.length) (hmonth : n.nmonth < parts.length)
    (hwday : n.nwday < parts.length) :
    ∃ f, readFields n parts = .ok f := by
  unfold readFields
  rw [partAt_eq _ _ hday, partAt_eq _ _ hyear, partAt_eq _ _ hhour, partAt_eq _ _ hmin]
  simp only [Except.bind]
  split
  · rw [partAt_eq _ _ hsec]
    simp only []
    split
    · exact ⟨_, rfl⟩
    · rw [partAt_eq _ _ hmonth, partAt_eq _ _ hwday]
      exact ⟨_, rfl⟩
  · exact ⟨_, rfl⟩

theorem resolveZone_ok (parts : List (List Char)) : ∃ z, resolveZone parts = .ok z := by
  unfold resolveZone
  split
  · next hlen =>
    rw [partAt_eq _ 10 (by omega)]
    simp only [Except.bind]
    split
    · have h4 : (rxOffset.capturedTexts (parts.getD 10 [])).length = 4 :=
        capturedTexts_length rxOffset _
      rw [partAt_eq _ 2 (by omega), partAt_eq _ 3 (by omega)]
      simp only []
      split
      · split
        · exact ⟨_, rfl⟩
        · rw [partAt_eq _ 1 (by omega)]
          exact ⟨_, rfl⟩
      · exact ⟨_, rfl⟩
    · exact ⟨_, rfl⟩
  · exact ⟨_, rfl⟩

theorem parseDateChars_eq (string : List Char) :
    parseDateChars string =
      if (trimmed string).isEmpty then .ok none
      else (recognise (trimmed string)).bind fun r =>
        match r with
        | none => .ok none
        | some (n, parts) => afterMatch n parts := by
  unfold parseDateChars
  rfl

theorem afterMatch_ok (n : Layout) (parts : List (List Char))
    (hday : n.nday < parts.length) (hyear : n.nyear < parts.length)
    (hhour : n.nhour < parts.length) (hmin : n.nmin < parts.length)
    (hsec : n.nsec < parts.length) (hmonth : n.nmonth < parts.length)
    (hwday : n.nwday < parts.length) :
    ∃ r, afterMatch n parts = .ok r := by
  unfold afterMatch
  obtain ⟨f, hf⟩ := readFields_ok n parts hday hyear hhour hmin hsec hmonth hwday
  rw [hf]
  cases f with
  | none => exact ⟨_, rfl⟩
  | some fields =>
    obtain ⟨z, hz⟩ := resolveZone_ok parts
    simp only [Except.bind, hz]
    cases z with
    | none => exact ⟨_, rfl⟩
    | some zone => exact ⟨_, rfl⟩

theorem parseDateChars_ok (string : List Char) : ∃ r, parseDateChars string = .ok r := by
  rw [parseDateChars_eq]
  split
  · exact ⟨_, rfl⟩
  · rcases recognise_cases (trimmed string) with h | ⟨_, h⟩ | ⟨_, _, h⟩
    · rw [h]; exact ⟨_, rfl⟩
    · rw [h]
      have hlen : (rxModern.capturedTexts (trimmed string)).length = 11 :=
        capturedTexts_length rxModern _
      simp only [Except.bind]
      apply afterMatch_ok <;> simp [modernLayout, hlen]
    · rw [h]
      have hlen : (rxObsolete.capturedTexts (trimmed string)).length = 8 :=
        capturedTexts_length rxObsolete _
      simp only [Except.bind]
      apply afterMatch_ok <;> simp [obsoleteLayout, hlen]

theorem parseDate_ok (string : String) : ∃ r, parseDate string = .ok r :=
  parseDateChars_ok string.toList

/-- C8. `parseDate` is total and never fails: for every input string it returns
a timestamp or the absent value; whichever dialect is recognised, each index it
reads in the list of captured texts (day, month, year, weekday, hour, minute,
second, and 10 for the zone of the modern form) is below the length of that
list, and so are the indexes 1, 2 and 3 read from the texts captured by the
numeric-zone expression. -/
theorem parseDate_total (string : String) :
    (∃ r : QDateTime, parseDate string = .ok r) ∧
    (∀ n parts, recognise (trimmed string.toList) = .ok (some (n, parts)) →
      n.nday < parts.length ∧ n.nmonth < parts.length ∧ n.nyear < parts.length ∧
      n.nwday < parts.length ∧ n.nhour < parts.length ∧ n.nmin < parts.length ∧
      n.nsec < parts.length ∧ (n = modernLayout → 3 < parts.length ∧ 5 < parts.length ∧
        10 < parts.length)) ∧
    (∀ zoneText : List Char, 3 < (rxOffset.capturedTexts zoneText).length) := by
  refine ⟨parseDate_ok string, ?_, ?_⟩
  · intro n parts h
    rcases recognise_cases (trimmed string.toList) with h' | ⟨_, h'⟩ | ⟨_, _, h'⟩
    · rw [h'] at h; cases h
    · rw [h'] at h
      cases h
      have hlen : (rxModern.capturedTexts (trimmed string.toList)).length = 11 :=
        capturedTexts_length rxModern _
      simp only [modernLayout, hlen]
      exact ⟨by omega, by omega, by omega, by omega, by omega, by omega, by omega,
        fun _ => ⟨by omega, by omega, by omega⟩⟩
    · rw [h'] at h
      cases h
      have hlen : (rxObsolete.capturedTexts (trimmed string.toList)).length = 8 :=
        capturedTexts_length rxObsolete _
      simp only [hlen]
      exact ⟨by decide, by decide, by decide, by decide, by decide, by decide, by decide,
        fun h => absurd h (by decide)⟩
  · intro zoneText
    have h4 : (rxOffset.capturedTexts zoneText).length = 4 :=
      capturedTexts_length rxOffset zoneText
    omega

/-! ## Strings of no known dialect -/

/-- C9. For every string that is empty once trimmed, or that matches neither
the modern nor the obsolete expression, `parseDate` returns the absent value. -/
theorem parseDate_unrecognised (string : String)
    (h : (trimmed string.toList).isEmpty = true ∨
      (rxModern.indexOf (trimmed string.toList) ≠ 0 ∧
        rxObsolete.indexOf (trimmed string.toList) ≠ 0)) :
    parseDate string = .ok none := by
  unfold parseDate
  rw [parseDateChars_eq]
  split
  · rfl
  · next hne =>
    rcases h with h | ⟨hm, ho⟩
    · exact absurd h hne
    · unfold recognise
      rw [if_neg hm, if_pos ho]
      rfl

/-- The claim C9 at `"not a date"` and at a blank string. -/
theorem parseDate_unrecognised_witness :
    (rxModern.indexOf (trimmed "not a date".toList) ≠ 0 ∧
      rxObsolete.indexOf (trimmed "not a date".toList) ≠ 0) ∧
    parseDate "not a date" = .ok none ∧ parseDate "  \t " = .ok none :=
  ⟨by decide, parseDate_unrecognised "not a date" (Or.inr (by decide)),
    parseDate_unrecognised "  \t " (Or.inl (by decide))⟩

/-! ## The modern form -/

theorem rxModern_not_empty : rxModern.indexOf [] ≠ 0 := by decide

theorem ite_bne_decide {α : Type} (p q : Prop) [Decidable p] [Decidable q] (a b : α) :
    (if (decide p != decide q) = true then a else b) = if (p ↔ q) then b else a := by
  by_cases hp : p <;> by_cases hq : q <;> simp [hp, hq]

theorem parseDateChars_modern (string : List Char)
    (hm : rxModern.indexOf (trimmed string) = 0) :
    parseDateChars string =
      if ((rxModern.capturedTexts (trimmed string)).getD 3 [] = ['-']) ↔
          ((rxModern.capturedTexts (trimmed string)).getD 5 [] = ['-']) then
        afterMatch modernLayout (rxModern.capturedTexts (trimmed string))
      else .ok none := by
  have hlen : (rxModern.capturedTexts (trimmed string)).length = 11 :=
    capturedTexts_length rxModern _
  have hne : (trimmed string).isEmpty = false := by
    cases hs : trimmed string with
    | nil => rw [hs] at hm; exact absurd hm rxModern_not_empty
    | cons c cs => rfl
  rw [parseDateChars_eq, hne]
  simp only [Bool.false_eq_true, if_false]
  unfold recognise
  rw [if_pos hm]
  dsimp only
  rw [partAt_eq _ 3 (by omega), partAt_eq _ 5 (by omega)]
  dsimp only [Except.bind]
  rw [ite_bne_decide]
  by_cases hc : ((rxModern.capturedTexts (trimmed string)).getD 3 [] = ['-']) ↔
      ((rxModern.capturedTexts (trimmed string)).getD 5 [] = ['-'])
  · rw [if_pos hc, if_pos hc]
  · rw [if_neg hc, if_neg hc]

theorem length_eleven (parts : List (List Char)) (h : parts.length = 11) :
    ∃ p0 p1 p2 p3 p4 p5 p6 p7 p8 p9 p10,
      parts = [p0, p1, p2, p3, p4, p5, p6, p7, p8, p9, p10] := by
  match parts, h with
  | [p0, p1, p2, p3, p4, p5, p6, p7, p8, p9, p10], _ =>
    exact ⟨p0, p1, p2, p3, p4, p5, p6, p7, p8, p9, p10, rfl⟩

/-- The fields of a modern-form text, from its captured texts. -/
theorem readFields_modern (p0 p1 p2 p3 p4 p5 p6 p7 p8 p9 p10 : List Char) :
    readFields modernLayout [p0, p1, p2, p3, p4, p5, p6, p7, p8, p9, p10] =
      match toInt p2, toInt p6, toInt p7, toInt p8 with
      | some day, some year, some hour, some minute =>
        match (if p9.isEmpty then some 0 else toInt p9) with
        | none => .ok none
        | some second0 =>
          .ok (some
            { day := day, year := adjustYear p6.length year, hour := hour,
              minute := minute, second := if second0 = 60 then 59 else second0,
              leapSecond := decide (second0 = 60), month := scanTable p4 shortMonth,
              dayOfWeek := lookupWeekday p1 })
      | _, _, _, _ => .ok none := by
  simp only [readFields, modernLayout, partAt, List.get?, Except.bind]
  split
  · next day year hour minute h2 h6 h7 h8 =>
    split <;> simp_all
  · rfl

theorem digitsValue_nonneg (s : List Char) :
    ∀ acc : Int, 0 ≤ acc → s.all isAsciiDigit = true → 0 ≤ digitsValue acc s := by
  induction s with
  | nil => intro acc h _; exact h
  | cons c cs ih =>
    intro acc h hall
    rw [List.all_cons, Bool.and_eq_true] at hall
    unfold digitsValue
    apply ih _ _ hall.2
    have hc : 48 ≤ c.toNat := by
      have := hall.1
      unfold isAsciiDigit at this
      rw [Bool.and_eq_true, decide_eq_true_eq] at this
      exact this.1
    omega

theorem toInt_nonneg (s : List Char) (v : Int) (h : toInt s = some v) : 0 ≤ v := by
  unfold toInt at h
  split at h
  · next hc =>
    rw [Bool.and_eq_true] at hc
    cases h
    exact digitsValue_nonneg s 0 (le_refl 0) hc.2
  · cases h

theorem scanTable_shortMonth (month : Nat) (h : month < 12) :
    scanTable (shortMonth.getD month "").toList shortMonth = month := by
  interval_cases month <;> decide

theorem lookupWeekday_shortDay (k : Nat) (h : k < 7) :
    lookupWeekday (shortDay.getD k "").toList = (k : Int) := by
  interval_cases k <;> decide

theorem lookupWeekday_longDay (k : Nat) (h : k < 7) :
    lookupWeekday (longDay.getD k "").toList = (k : Int) := by
  interval_cases k <;> decide

theorem lookupWeekday_nil : lookupWeekday [] = -1 := by decide

theorem resolveZone_gmt (p0 p1 p2 p3 p4 p5 p6 p7 p8 p9 : List Char) :
    resolveZone [p0, p1, p2, p3, p4, p5, p6, p7, p8, p9, "GMT".toList] =
      .ok (some { offset := 0, negOffset := false }) := by
  rfl

theorem resolveZone_ut (p0 p1 p2 p3 p4 p5 p6 p7 p8 p9 : List Char) :
    resolveZone [p0, p1, p2, p3, p4, p5, p6, p7, p8, p9, "UT".toList] =
      .ok (some { offset := 0, negOffset := false }) := by
  rfl

/-- The timestamp assembled from fields that are in range, with a zero
offset. -/
theorem assemble_utc (f : Fields) (negOffset : Bool)
    (hdate : dateIsValid f.year ((f.month : Int) + 1) f.day = true)
    (hh : 0 ≤ f.hour ∧ f.hour < 24) (hmi : 0 ≤ f.minute ∧ f.minute < 60)
    (hs : 0 ≤ f.second ∧ f.second < 60) (hleap : f.leapSecond = false)
    (hw : f.dayOfWeek = -1 ∨
      QDate.dayOfWeek ⟨f.year, (f.month : Int) + 1, f.day⟩ = f.dayOfWeek + 1) :
    assemble f { offset := 0, negOffset := negOffset } =
      some ⟨⟨f.year, (f.month : Int) + 1, f.day⟩, ⟨f.hour, f.minute, f.second⟩, .UTC⟩ := by
  unfold assemble
  simp only [QDate.make, hdate, if_true, QTime.make]
  rw [if_pos ⟨hh.1, hh.2, hmi.1, hmi.2, hs.1, hs.2⟩]
  simp only []
  have hwd : ¬(f.dayOfWeek ≥ 0 ∧
      QDate.dayOfWeek ⟨f.year, (f.month : Int) + 1, f.day⟩ ≠ f.dayOfWeek + 1) := by
    rintro ⟨h1, h2⟩
    rcases hw with hw | hw
    · omega
    · exact h2 hw
  rw [if_neg hwd, hleap]
  simp

/-- C4, as stated, fails: `"06-Nov 1994 08:49:37 GMT"` is matched by the
modern expression, its zone is GMT, its fields are in range and it names no
weekday, yet `parseDate` returns the absent value, because one date gap is a
hyphen and the other a blank. -/
theorem parseDate_gmt_mixed_separators :
    rxModern.indexOf (trimmed "06-Nov 1994 08:49:37 GMT".toList) = 0 ∧
    rxModern.capturedTexts (trimmed "06-Nov 1994 08:49:37 GMT".toList) =
      ["06-Nov 1994 08:49:37 GMT".toList, [], "06".toList, "-".toList, "Nov".toList,
        " ".toList, "1994".toList, "08".toList, "49".toList, "37".toList, "GMT".toList] ∧
    dateIsValid 1994 11 6 = true ∧
    parseDate "06-Nov 1994 08:49:37 GMT" = .ok none := by
  decide

/-- C4, amended. For every string matched by the modern expression in which the
two date gaps are both a hyphen or both white space, whose zone is `GMT` or
`UT`, whose day, year, hour and minute are read as numbers, whose month is one
of the twelve short names, whose date is a valid one, whose hour is below 24,
minute below 60 and second (0 when not written) below 60, and whose weekday
name, if any, is the short or the long name of the day of the week of that
date, `parseDate` returns a present timestamp marked UTC whose fields are the
written ones; the year is the written number when it has four digits, and the
written number raised by 1900 or 2000 (lines 190-194) otherwise. -/
theorem parseDate_gmt (string : String) (parts : List (List Char))
    (day year hour minute second : Int) (month : Nat)
    (hm : rxModern.indexOf (trimmed string.toList) = 0)
    (hparts : rxModern.capturedTexts (trimmed string.toList) = parts)
    (hsep : parts.getD 3 [] = ['-'] ↔ parts.getD 5 [] = ['-'])
    (hzone : parts.getD 10 [] = "GMT".toList ∨ parts.getD 10 [] = "UT".toList)
    (hday : toInt (parts.getD 2 []) = some day)
    (hmonth : month < 12 ∧ parts.getD 4 [] = (shortMonth.getD month "").toList)
    (hyear : toInt (parts.getD 6 []) = some year)
    (hhour : toInt (parts.getD 7 []) = some hour)
    (hminute : toInt (parts.getD 8 []) = some minute)
    (hsecond : (parts.getD 9 [] = [] ∧ second = 0) ∨ toInt (parts.getD 9 []) = some second)
    (hdate : dateIsValid (adjustYear (parts.getD 6 []).length year) ((month : Int) + 1) day
      = true)
    (htime : hour < 24 ∧ minute < 60 ∧ second < 60)
    (hwday : parts.getD 1 [] = [] ∨ ∃ k : Nat, k < 7 ∧
      QDate.dayOfWeek ⟨adjustYear (parts.getD 6 []).length year, (month : Int) + 1, day⟩
        = (k : Int) + 1 ∧
      (parts.getD 1 [] = (shortDay.getD k "").toList ∨
        parts.getD 1 [] = (longDay.getD k "").toList)) :
    parseDate string =
      .ok (some ⟨⟨adjustYear (parts.getD 6 []).length year, (month : Int) + 1, day⟩,
        ⟨hour, minute, second⟩, .UTC⟩) ∧
    ((parts.getD 6 []).length = 4 → adjustYear (parts.getD 6 []).length year = year) := by
  refine ⟨?_, fun h4 => by rw [h4]; rfl⟩
  have hlen : parts.length = 11 := by
    rw [← hparts]; exact capturedTexts_length rxModern _
  unfold parseDate
  rw [parseDateChars_modern _ hm, hparts, if_pos hsep]
  obtain ⟨p0, p1, p2, p3, p4, p5, p6, p7, p8, p9, p10, rfl⟩ := length_eleven parts hlen
  simp only [List.getD_cons_zero, List.getD_cons_succ] at *
  have hsec0 : 0 ≤ second := by
    rcases hsecond with ⟨_, h⟩ | h
    · omega
    · exact toInt_nonneg _ _ h
  have hsec' : (if p9.isEmpty then some 0 else toInt p9) = some second := by
    rcases hsecond with ⟨h9, h⟩ | h
    · rw [h9, h]; rfl
    · have : p9.isEmpty = false := by
        cases p9 with
        | nil => cases h
        | cons c cs => rfl
      rw [this]; exact h
  have hne60 : second ≠ 60 := by omega
  have hfields : readFields modernLayout [p0, p1, p2, p3, p4, p5, p6, p7, p8, p9, p10] =
      .ok (some
        { day := day, year := adjustYear p6.length year, hour := hour, minute := minute,
          second := second, leapSecond := false, month := month,
          dayOfWeek := lookupWeekday p1 }) := by
    rw [readFields_modern, hday, hyear, hhour, hminute]
    simp only [hsec']
    rw [hmonth.2, scanTable_shortMonth month hmonth.1]
    simp [hne60]
  have hzone' : resolveZone [p0, p1, p2, p3, p4, p5, p6, p7, p8, p9, p10] =
      .ok (some { offset := 0, negOffset := false }) := by
    rcases hzone with h | h
    · rw [h]; exact resolveZone_gmt _ _ _ _ _ _ _ _ _ _
    · rw [h]; exact resolveZone_ut _ _ _ _ _ _ _ _ _ _
  unfold afterMatch
  rw [hfields]
  simp only [Except.bind, hzone']
  rw [assemble_utc]
  · exact hdate
  · exact ⟨toInt_nonneg _ _ hhour, htime.1⟩
  · exact ⟨toInt_nonneg _ _ hminute, htime.2.1⟩
  · exact ⟨hsec0, htime.2.2⟩
  · rfl
  · rcases hwday with h | ⟨k, hk, hdow, h | h⟩
    · left; rw [h]; exact lookupWeekday_nil
    · right; simp only [h, lookupWeekday_shortDay k hk]; exact hdow
    · right; simp only [h, lookupWeekday_longDay k hk]; exact hdow

/-- The amended C4 at `"Sun, 06 Nov 1994 08:49:37 GMT"`: the timestamp is
1994-11-06 08:49:37 UTC. -/
theorem parseDate_gmt_witness :
    parseDate "Sun, 06 Nov 1994 08:49:37 GMT" =
      .ok (some ⟨⟨1994, 11, 6⟩, ⟨8, 49, 37⟩, .UTC⟩) :=
  (parseDate_gmt "Sun, 06 Nov 1994 08:49:37 GMT"
    ["Sun, 06 Nov 1994 08:49:37 GMT".toList, "Sun".toList, "06".toList, " ".toList,
      "Nov".toList, " ".toList, "1994".toList, "08".toList, "49".toList, "37".toList,
      "GMT".toList]
    6 1994 8 49 37 10 (by decide) (by decide) (by decide) (by decide) (by decide)
    (by decide) (by decide) (by decide) (by decide) (by decide) (by decide) (by decide)
    (Or.inr ⟨6, by decide, by decide, Or.inl (by decide)⟩)).1

/-! ## Numeric offsets -/

/-- C1, the code at `"Sun, 06 Nov 1994 08:49:37 +0100"`. The zone is resolved
to an offset of 3600 seconds, but the timestamp returned is 1994-11-06 08:49:37
in local time, the offset not subtracted: on a machine whose own zone is
`localOffset` seconds east of UTC it denotes 07:49:37 UTC only if that zone
happens to be +0100 too, and on a machine at UTC it denotes 08:49:37 UTC. -/
theorem parseDate_offset_dropped (localOffset : Int) :
    resolveZone (rxModern.capturedTexts (trimmed "Sun, 06 Nov 1994 08:49:37 +0100".toList)) =
      .ok (some { offset := 3600, negOffset := false }) ∧
    parseDate "Sun, 06 Nov 1994 08:49:37 +0100" =
      .ok (some ⟨⟨1994, 11, 6⟩, ⟨8, 49, 37⟩, .LocalTime⟩) ∧
    (DateTime.utcSeconds localOffset ⟨⟨1994, 11, 6⟩, ⟨8, 49, 37⟩, .LocalTime⟩ =
        DateTime.utcSeconds localOffset ⟨⟨1994, 11, 6⟩, ⟨7, 49, 37⟩, .UTC⟩ ↔
      localOffset = 3600) ∧
    DateTime.utcSeconds 0 ⟨⟨1994, 11, 6⟩, ⟨8, 49, 37⟩, .LocalTime⟩ =
      DateTime.utcSeconds 0 ⟨⟨1994, 11, 6⟩, ⟨8, 49, 37⟩, .UTC⟩ := by
  refine ⟨by decide, by decide, ?_, by decide⟩
  have h1 : DateTime.writtenSeconds ⟨⟨1994, 11, 6⟩, ⟨8, 49, 37⟩, .LocalTime⟩ =
      DateTime.writtenSeconds ⟨⟨1994, 11, 6⟩, ⟨7, 49, 37⟩, .UTC⟩ + 3600 := by decide
  simp only [DateTime.utcSeconds, h1]
  omega

/-! ## Years written with two digits -/

theorem adjustYear_two (yy : Int) :
    adjustYear 2 yy = adjustYear 4 (if yy < 50 then 2000 + yy else 1900 + yy) := by
  unfold adjustYear
  split_ifs <;> omega

theorem resolveZone_modern (p0 p1 p2 p3 p4 p5 p6 p7 p8 p9 p10 q0 q6 : List Char) :
    resolveZone [p0, p1, p2, p3, p4, p5, p6, p7, p8, p9, p10] =
      resolveZone [q0, p1, p2, p3, p4, p5, q6, p7, p8, p9, p10] := by
  rfl

/-- C5. For every string matched by the modern expression whose year is written
with exactly two digits, of value `yy`, `parseDate` returns what it returns for
a string matched by the modern expression with the same captured fields apart
from the year, written with four digits and of value 2000 + yy when yy < 50 and
1900 + yy otherwise. -/
theorem parseDate_two_digit_year (s s' : String) (parts parts' : List (List Char)) (yy : Int)
    (hm : rxModern.indexOf (trimmed s.toList) = 0)
    (hparts : rxModern.capturedTexts (trimmed s.toList) = parts)
    (hm' : rxModern.indexOf (trimmed s'.toList) = 0)
    (hparts' : rxModern.capturedTexts (trimmed s'.toList) = parts')
    (hsame : ∀ i ∈ [1, 2, 3, 4, 5, 7, 8, 9, 10], parts'.getD i [] = parts.getD i [])
    (hyy : (parts.getD 6 []).length = 2 ∧ toInt (parts.getD 6 []) = some yy)
    (hyyyy : (parts'.getD 6 []).length = 4 ∧
      toInt (parts'.getD 6 []) = some (if yy < 50 then 2000 + yy else 1900 + yy)) :
    parseDate s = parseDate s' := by
  have hlen : parts.length = 11 := by
    rw [← hparts]; exact capturedTexts_length rxModern _
  have hlen' : parts'.length = 11 := by
    rw [← hparts']; exact capturedTexts_length rxModern _
  unfold parseDate
  rw [parseDateChars_modern _ hm, parseDateChars_modern _ hm', hparts, hparts']
  obtain ⟨p0, p1, p2, p3, p4, p5, p6, p7, p8, p9, p10, rfl⟩ := length_eleven parts hlen
  obtain ⟨q0, q1, q2, q3, q4, q5, q6, q7, q8, q9, q10, rfl⟩ := length_eleven parts' hlen'
  have e1 := hsame 1 (by decide)
  have e2 := hsame 2 (by decide)
  have e3 := hsame 3 (by decide)
  have e4 := hsame 4 (by decide)
  have e5 := hsame 5 (by decide)
  have e7 := hsame 7 (by decide)
  have e8 := hsame 8 (by decide)
  have e9 := hsame 9 (by decide)
  have e10 := hsame 10 (by decide)
  simp only [List.getD_cons_zero, List.getD_cons_succ] at *
  subst e1 e2 e3 e4 e5 e7 e8 e9 e10
  have hfields : readFields modernLayout [p0, q1, q2, q3, q4, q5, p6, q7, q8, q9, q10] =
      readFields modernLayout [q0, q1, q2, q3, q4, q5, q6, q7, q8, q9, q10] := by
    rw [readFields_modern, readFields_modern, hyy.1, hyy.2, hyyyy.1, hyyyy.2]
    cases toInt q2 <;> cases toInt q7 <;> cases toInt q8 <;> try rfl
    simp only [adjustYear_two yy]
  unfold afterMatch
  rw [hfields, resolveZone_modern p0 q1 q2 q3 q4 q5 p6 q7 q8 q9 q10 q0 q6]

/-- The claim C5 at `"06 Nov 94 08:49:37 GMT"` and `"06 Nov 1994 08:49:37 GMT"`:
the same timestamp, 1994-11-06 08:49:37 UTC. -/
theorem parseDate_two_digit_year_witness :
    parseDate "06 Nov 94 08:49:37 GMT" = parseDate "06 Nov 1994 08:49:37 GMT" ∧
    parseDate "06 Nov 1994 08:49:37 GMT" =
      .ok (some ⟨⟨1994, 11, 6⟩, ⟨8, 49, 37⟩, .UTC⟩) ∧
    parseDate "06 Nov 49 08:49:37 GMT" = parseDate "06 Nov 2049 08:49:37 GMT" :=
  ⟨parseDate_two_digit_year "06 Nov 94 08:49:37 GMT" "06 Nov 1994 08:49:37 GMT"
      ["06 Nov 94 08:49:37 GMT".toList, [], "06".toList, " ".toList, "Nov".toList,
        " ".toList, "94".toList, "08".toList, "49".toList, "37".toList, "GMT".toList]
      ["06 Nov 1994 08:49:37 GMT".toList, [], "06".toList, " ".toList, "Nov".toList,
        " ".toList, "1994".toList, "08".toList, "49".toList, "37".toList, "GMT".toList]
      94 (by decide) (by decide) (by decide) (by decide) (by decide) (by decide) (by decide),
    by decide,
    parseDate_two_digit_year "06 Nov 49 08:49:37 GMT" "06 Nov 2049 08:49:37 GMT"
      ["06 Nov 49 08:49:37 GMT".toList, [], "06".toList, " ".toList, "Nov".toList,
        " ".toList, "49".toList, "08".toList, "49".toList, "37".toList, "GMT".toList]
      ["06 Nov 2049 08:49:37 GMT".toList, [], "06".toList, " ".toList, "Nov".toList,
        " ".toList, "2049".toList, "08".toList, "49".toList, "37".toList, "GMT".toList]
      49 (by decide) (by decide) (by decide) (by decide) (by decide) (by decide) (by decide)⟩

/-! ## The constructors -/

/-- C2, the code at a fragment with a title, a torrent enclosure with a URL and
a second torrent enclosure without the `url` attribute: the constructor returns
at line 279 with `is_valid` still true, so the item is valid although the
torrent URL it ends up with is null, hence empty. Its hash is left unset. -/
theorem fromElement_valid_without_url :
    RssItem.fromElement
      [.element "title" [] "A",
       .element "enclosure" [("type", "application/x-bittorrent"), ("url", "u")] "",
       .element "enclosure" [("type", "application/x-bittorrent")] ""] =
      .ok { title := some "A", torrent_url := none, news_link := none, description := none,
            date := none, author := none, hash := none, is_valid := true, read := false } ∧
    QString.isEmpty (some "A") = false ∧ QString.isEmpty none = true := by
  decide

/-- C6. The item built by the reconstruction constructor is valid if and only
if the title is not empty and the torrent URL is not empty, and its seven fields
are the arguments. -/
theorem fromFields_spec (title torrent_url news_link description : QString)
    (date : QDateTime) (author : QString) (read : Bool) :
    ((RssItem.fromFields title torrent_url news_link description date author read).is_valid
        = true ↔ (title.isEmpty = false ∧ torrent_url.isEmpty = false)) ∧
    (RssItem.fromFields title torrent_url news_link description date author read).title
      = title ∧
    (RssItem.fromFields title torrent_url news_link description date author read).torrent_url
      = torrent_url ∧
    (RssItem.fromFields title torrent_url news_link description date author read).news_link
      = news_link ∧
    (RssItem.fromFields title torrent_url news_link description date author read).description
      = description ∧
    (RssItem.fromFields title torrent_url news_link description date author read).date
      = date ∧
    (RssItem.fromFields title torrent_url news_link description date author read).author
      = author ∧
    (RssItem.fromFields title torrent_url news_link description date author read).read
      = read := by
  refine ⟨?_, rfl, rfl, rfl, rfl, rfl, rfl, rfl⟩
  unfold RssItem.fromFields
  cases title.isEmpty <;> cases torrent_url.isEmpty <;> simp

/-- C7. For every item `x`, `fromHash (toHash x)` is an item whose title, torrent
URL, link, stored description, date, author and read flag are those of `x`. -/
theorem fromHash_toHash (x : RssItem) :
    ∃ y, RssItem.fromHash x.toHash = some y ∧
      y.title = x.title ∧ y.torrent_url = x.torrent_url ∧ y.news_link = x.news_link ∧
      y.description = x.description ∧ y.date = x.date ∧ y.author = x.author ∧
      y.read = x.read :=
  ⟨RssItem.fromFields x.title x.torrent_url x.news_link x.description x.date x.author x.read,
    rfl, rfl, rfl, rfl, rfl, rfl, rfl, rfl⟩

theorem walk_pubDate_text (a : List QDomNode) :
    ∀ (b : List QDomNode) (item : RssItem) (d' : QDateTime),
      samePubDateApart a b = true →
      ∃ r d'', RssItem.walk item a = .ok r ∧
        RssItem.walk { item with date := d' } b = .ok (r.1, { r.2 with date := d'' }) := by
  induction a with
  | nil =>
    intro b item d' h
    cases b with
    | nil => exact ⟨(true, item), d', rfl, rfl⟩
    | cons m bs => simp [samePubDateApart] at h
  | cons n as ih =>
    intro b item d' h
    cases b with
    | nil => cases n <;> simp [samePubDateApart] at h
    | cons m bs =>
      cases n with
      | other =>
        cases m with
        | other => exact ⟨(true, item), d', rfl, rfl⟩
        | element t' a' x' => simp [samePubDateApart] at h
      | element t a x =>
        cases m with
        | other => simp [samePubDateApart] at h
        | element t' a' x' =>
          simp only [samePubDateApart, Bool.and_eq_true, Bool.or_eq_true,
            decide_eq_true_eq] at h
          obtain ⟨⟨⟨ht, ha⟩, hx⟩, hrest⟩ := h
          subst ht ha
          by_cases hp : t = "pubDate"
          · subst hp
            obtain ⟨d1, hd1⟩ := parseDate_ok x
            obtain ⟨d2, hd2⟩ := parseDate_ok x'
            simp only [RssItem.walk, hd1, hd2, Except.bind]
            simp only [show ¬("pubDate" = "title") by decide,
              show ¬("pubDate" = "enclosure") by decide, show ¬("pubDate" = "link") by decide,
              show ¬("pubDate" = "description") by decide, if_false, if_true]
            exact ih bs { item with date := d1 } d2 hrest
          · have hxx : x = x' := by
              rcases hx with hx | hx
              · exact hx
              · exact absurd hx hp
            subst hxx
            simp only [RssItem.walk, if_neg hp]
            split_ifs
            all_goals first
              | exact ih bs _ d' hrest
              | exact ⟨_, d', rfl, rfl⟩

theorem walk_date_absent (nodes : List QDomNode) :
    ∀ (item : RssItem) (r : Bool × RssItem), item.date = none →
      (∀ attributes text, QDomNode.element "pubDate" attributes text ∈ nodes →
        parseDate text = .ok none) →
      RssItem.walk item nodes = .ok r → r.2.date = none := by
  induction nodes with
  | nil =>
    intro item r hd _ hw
    cases hw
    exact hd
  | cons n rest ih =>
    intro item r hd hall hw
    have hall' : ∀ attributes text, QDomNode.element "pubDate" attributes text ∈ rest →
        parseDate text = .ok none :=
      fun attributes text hmem => hall attributes text (List.mem_cons_of_mem _ hmem)
    cases n with
    | other =>
      cases hw
      exact hd
    | element tagName attributes text =>
      by_cases hp : tagName = "pubDate"
      · subst hp
        simp only [RssItem.walk] at hw
        simp only [show ¬("pubDate" = "title") by decide,
          show ¬("pubDate" = "enclosure") by decide, show ¬("pubDate" = "link") by decide,
          show ¬("pubDate" = "description") by decide, if_false, if_true] at hw
        rw [hall attributes text (List.mem_cons_self _ _)] at hw
        exact ih _ r rfl hall' hw
      · simp only [RssItem.walk, if_neg hp] at hw
        split_ifs at hw
        all_goals first
          | (refine ih _ r ?_ hall' hw; exact hd)
          | (cases hw; exact hd)

/-- C10. For every fragment, changing only the text of its `pubDate` elements
leaves the validity, the title, the torrent URL and the hash of the item built
by the fragment constructor unchanged (an item is built in both cases); and
when no `pubDate` text of a fragment can be parsed, the date of its item is the
absent value. -/
theorem fromElement_pubDate (a b : List QDomNode) (h : samePubDateApart a b = true) :
    ∃ x y, RssItem.fromElement a = .ok x ∧ RssItem.fromElement b = .ok y ∧
      x.is_valid = y.is_valid ∧ x.title = y.title ∧ x.torrent_url = y.torrent_url ∧
      x.hash = y.hash ∧
      ((∀ attributes text, QDomNode.element "pubDate" attributes text ∈ b →
          parseDate text = .ok none) → y.date = none) := by
  obtain ⟨r, d'', hr, hr'⟩ := walk_pubDate_text a b RssItem.initial none h
  have hr'' : RssItem.walk RssItem.initial b = .ok (r.1, { r.2 with date := d'' }) := hr'
  unfold RssItem.fromElement
  rw [hr, hr'']
  simp only [Except.bind]
  have hdate : (∀ attributes text, QDomNode.element "pubDate" attributes text ∈ b →
      parseDate text = .ok none) → d'' = none := fun hall =>
    walk_date_absent b RssItem.initial _ rfl hall hr''
  cases hflag : r.1 with
  | true => exact ⟨_, _, rfl, rfl, rfl, rfl, rfl, rfl, hdate⟩
  | false => exact ⟨_, _, rfl, rfl, rfl, rfl, rfl, rfl, hdate⟩

/-- The claim C10 at a fragment whose `pubDate` text is changed from a date to
`"not a date"`: the second item is valid like the first, and has no date. -/
theorem fromElement_pubDate_witness :
    ∃ x y,
      RssItem.fromElement
          [.element "title" [] "A", .element "pubDate" [] "Sun, 06 Nov 1994 08:49:37 GMT",
           .element "enclosure" [("type", "application/x-bittorrent"), ("url", "u")] ""] =
        .ok x ∧
      RssItem.fromElement
          [.element "title" [] "A", .element "pubDate" [] "not a date",
           .element "enclosure" [("type", "application/x-bittorrent"), ("url", "u")] ""] =
        .ok y ∧
      x.is_valid = y.is_valid ∧ x.title = y.title ∧ x.torrent_url = y.torrent_url ∧
      x.hash = y.hash ∧
      ((∀ attributes text, QDomNode.element "pubDate" attributes text ∈
          [QDomNode.element "title" [] "A", .element "pubDate" [] "not a date",
           .element "enclosure" [("type", "application/x-bittorrent"), ("url", "u")] ""] →
          parseDate text = .ok none) → y.date = none) :=
  fromElement_pubDate _ _ (by decide)

/-! ## Either dialect: the fields read and the timestamp assembled -/

theorem recognise_nil : recognise [] = .ok none := by decide

theorem parseDateChars_recognised (string : List Char) (n : Layout)
    (parts : List (List Char))
    (h : recognise (trimmed string) = .ok (some (n, parts))) :
    parseDateChars string = afterMatch n parts := by
  have hne : (trimmed string).isEmpty = false := by
    cases hs : trimmed string with
    | nil => rw [hs, recognise_nil] at h; cases h
    | cons c cs => rfl
  rw [parseDateChars_eq, hne, h]
  rfl

/-- The index bounds of a recognised layout. -/
theorem recognise_bounds (str : List Char) (n : Layout) (parts : List (List Char))
    (h : recognise str = .ok (some (n, parts))) :
    n.nday < parts.length ∧ n.nyear < parts.length ∧ n.nhour < parts.length ∧
    n.nmin < parts.length ∧ n.nsec < parts.length ∧ n.nmonth < parts.length ∧
    n.nwday < parts.length := by
  rcases recognise_cases str with h' | ⟨_, h'⟩ | ⟨_, _, h'⟩
  · rw [h'] at h; cases h
  · rw [h'] at h
    cases h
    have hlen : (rxModern.capturedTexts str).length = 11 := capturedTexts_length rxModern _
    simp only [modernLayout, hlen]
    exact ⟨by omega, by omega, by omega, by omega, by omega, by omega, by omega⟩
  · rw [h'] at h
    cases h
    have hlen : (rxObsolete.capturedTexts str).length = 8 := capturedTexts_length rxObsolete _
    simp only [obsoleteLayout, hlen]
    exact ⟨by omega, by omega, by omega, by omega, by omega, by omega, by omega⟩

theorem readFields_getD (n : Layout) (parts : List (List Char))
    (hb : n.nday < parts.length ∧ n.nyear < parts.length ∧ n.nhour < parts.length ∧
      n.nmin < parts.length ∧ n.nsec < parts.length ∧ n.nmonth < parts.length ∧
      n.nwday < parts.length) :
    readFields n parts =
      match toInt (parts.getD n.nday []), toInt (parts.getD n.nyear []),
        toInt (parts.getD n.nhour []), toInt (parts.getD n.nmin []) with
      | some day, some year, some hour, some minute =>
        match (if (parts.getD n.nsec []).isEmpty then some 0
          else toInt (parts.getD n.nsec [])) with
        | none => .ok none
        | some second0 =>
          .ok (some
            { day := day, year := adjustYear (parts.getD n.nyear []).length year,
              hour := hour, minute := minute,
              second := if second0 = 60 then 59 else second0,
              leapSecond := decide (second0 = 60),
              month := scanTable (parts.getD n.nmonth []) shortMonth,
              dayOfWeek := lookupWeekday (parts.getD n.nwday []) })
      | _, _, _, _ => .ok none := by
  obtain ⟨hday, hyear, hhour, hmin, hsec, hmonth, hwday⟩ := hb
  unfold readFields
  rw [partAt_eq _ _ hday, partAt_eq _ _ hyear, partAt_eq _ _ hhour, partAt_eq _ _ hmin,
    partAt_eq _ _ hsec, partAt_eq _ _ hmonth, partAt_eq _ _ hwday]
  simp only [Except.bind]
  split
  · split <;> simp_all
  · simp_all

theorem readFields_of_texts (n : Layout) (parts : List (List Char))
    (hb : n.nday < parts.length ∧ n.nyear < parts.length ∧ n.nhour < parts.length ∧
      n.nmin < parts.length ∧ n.nsec < parts.length ∧ n.nmonth < parts.length ∧
      n.nwday < parts.length)
    (day year hour minute second : Int)
    (hday : toInt (parts.getD n.nday []) = some day)
    (hyear : toInt (parts.getD n.nyear []) = some year)
    (hhour : toInt (parts.getD n.nhour []) = some hour)
    (hminute : toInt (parts.getD n.nmin []) = some minute)
    (hsecond : (parts.getD n.nsec [] = [] ∧ second = 0) ∨
      toInt (parts.getD n.nsec []) = some second) :
    readFields n parts =
      .ok (some
        { day := day, year := adjustYear (parts.getD n.nyear []).length year,
          hour := hour, minute := minute,
          second := if second = 60 then 59 else second,
          leapSecond := decide (second = 60),
          month := scanTable (parts.getD n.nmonth []) shortMonth,
          dayOfWeek := lookupWeekday (parts.getD n.nwday []) }) := by
  have hsec' : (if (parts.getD n.nsec []).isEmpty then some 0
      else toInt (parts.getD n.nsec [])) = some second := by
    rcases hsecond with ⟨h9, h⟩ | h
    · rw [h9, h]; rfl
    · have : (parts.getD n.nsec []).isEmpty = false := by
        cases hp : parts.getD n.nsec [] with
        | nil => rw [hp] at h; cases h
        | cons c cs => rfl
      rw [this]; exact h
  rw [readFields_getD n parts hb, hday, hyear, hhour, hminute]
  simp only [hsec']

theorem readFields_inv (n : Layout) (parts : List (List Char))
    (hb : n.nday < parts.length ∧ n.nyear < parts.length ∧ n.nhour < parts.length ∧
      n.nmin < parts.length ∧ n.nsec < parts.length ∧ n.nmonth < parts.length ∧
      n.nwday < parts.length)
    (f : Fields) (h : readFields n parts = .ok (some f)) :
    ∃ day year hour minute second : Int,
      toInt (parts.getD n.nday []) = some day ∧
      toInt (parts.getD n.nyear []) = some year ∧
      toInt (parts.getD n.nhour []) = some hour ∧
      toInt (parts.getD n.nmin []) = some minute ∧
      ((parts.getD n.nsec [] = [] ∧ second = 0) ∨
        toInt (parts.getD n.nsec []) = some second) ∧
      f = { day := day, year := adjustYear (parts.getD n.nyear []).length year,
            hour := hour, minute := minute,
            second := if second = 60 then 59 else second,
            leapSecond := decide (second = 60),
            month := scanTable (parts.getD n.nmonth []) shortMonth,
            dayOfWeek := lookupWeekday (parts.getD n.nwday []) } := by
  rw [readFields_getD n parts hb] at h
  split at h
  · next day year hour minute h1 h2 h3 h4 =>
    split at h
    · cases h
    · next second0 hs =>
      injection h with h
      injection h with h
      refine ⟨day, year, hour, minute, second0, h1, h2, h3, h4, ?_, h.symm⟩
      by_cases he : (parts.getD n.nsec []).isEmpty = true
      · rw [if_pos he] at hs
        injection hs with hs
        left
        exact ⟨List.isEmpty_iff.mp he, hs.symm⟩
      · rw [if_neg he] at hs
        right
        exact hs
  · cases h

theorem parseDateChars_present (string : List Char) (t : DateTime)
    (h : parseDateChars string = .ok (some t)) :
    ∃ n parts f z, recognise (trimmed string) = .ok (some (n, parts)) ∧
      readFields n parts = .ok (some f) ∧ resolveZone parts = .ok (some z) ∧
      assemble f z = some t := by
  rw [parseDateChars_eq] at h
  split at h
  · cases h
  · cases hr : recognise (trimmed string) with
    | error e => rw [hr] at h; cases h
    | ok r =>
      rw [hr] at h
      cases r with
      | none => cases h
      | some np =>
        obtain ⟨n, parts⟩ := np
        simp only [Except.bind, afterMatch] at h
        cases hf : readFields n parts with
        | error e => rw [hf] at h; cases h
        | ok f =>
          rw [hf] at h
          cases f with
          | none => cases h
          | some fields =>
            simp only [] at h
            cases hz : resolveZone parts with
            | error e => rw [hz] at h; cases h
            | ok z =>
              rw [hz] at h
              cases z with
              | none => cases h
              | some zone =>
                simp only [] at h
                injection h with h
                exact ⟨n, parts, fields, zone, rfl, hf, hz, h⟩

theorem assemble_inv (f : Fields) (z : Zone) (t : DateTime) (h : assemble f z = some t) :
    dateIsValid f.year ((f.month : Int) + 1) f.day = true ∧
    (0 ≤ f.hour ∧ f.hour < 24 ∧ 0 ≤ f.minute ∧ f.minute < 60 ∧ 0 ≤ f.second ∧
      f.second < 60) ∧
    (f.dayOfWeek ≥ 0 →
      QDate.dayOfWeek ⟨f.year, (f.month : Int) + 1, f.day⟩ = f.dayOfWeek + 1) ∧
    (f.leapSecond = true →
      (f.hour * 3600 + f.minute * 60 + 60 - z.offset + 86400 * 5).tmod 86400 = 0) ∧
    t = ⟨⟨f.year, (f.month : Int) + 1, f.day⟩, ⟨f.hour, f.minute, f.second⟩,
      if z.offset = 0 then .UTC else .LocalTime⟩ := by
  unfold assemble at h
  by_cases hd : dateIsValid f.year ((f.month : Int) + 1) f.day = true
  · simp only [QDate.make, hd, if_true] at h
    by_cases ht : 0 ≤ f.hour ∧ f.hour < 24 ∧ 0 ≤ f.minute ∧ f.minute < 60 ∧ 0 ≤ f.second ∧
        f.second < 60
    · simp only [QTime.make, if_pos ht] at h
      split at h
      · cases h
      · next hw =>
        split at h
        · cases h
        · next hl =>
          injection h with h
          refine ⟨hd, ht, ?_, ?_, h.symm⟩
          · intro h0
            by_contra hne
            exact hw ⟨h0, hne⟩
          · intro hleap
            by_contra hne
            exact hl ⟨hleap, hne⟩
    · simp only [QTime.make, if_neg ht] at h
      cases h
  · simp only [QDate.make, hd] at h
    cases h

theorem assemble_eq (f : Fields) (z : Zone)
    (hdate : dateIsValid f.year ((f.month : Int) + 1) f.day = true)
    (ht : 0 ≤ f.hour ∧ f.hour < 24 ∧ 0 ≤ f.minute ∧ f.minute < 60 ∧ 0 ≤ f.second ∧
      f.second < 60)
    (hw : f.dayOfWeek = -1 ∨
      QDate.dayOfWeek ⟨f.year, (f.month : Int) + 1, f.day⟩ = f.dayOfWeek + 1) :
    assemble f z =
      if f.leapSecond = true ∧
          (f.hour * 3600 + f.minute * 60 + 60 - z.offset + 86400 * 5).tmod 86400 ≠ 0 then
        none
      else
        some ⟨⟨f.year, (f.month : Int) + 1, f.day⟩, ⟨f.hour, f.minute, f.second⟩,
          if z.offset = 0 then .UTC else .LocalTime⟩ := by
  unfold assemble
  simp only [QDate.make, hdate, if_true, QTime.make]
  rw [if_pos ht]
  simp only []
  have hwd : ¬(f.dayOfWeek ≥ 0 ∧
      QDate.dayOfWeek ⟨f.year, (f.month : Int) + 1, f.day⟩ ≠ f.dayOfWeek + 1) := by
    rintro ⟨h1, h2⟩
    rcases hw with hw | hw
    · omega
    · exact h2 hw
  rw [if_neg hwd]

theorem afterMatch_of (n : Layout) (parts : List (List Char)) (f : Fields) (z : Zone)
    (hf : readFields n parts = .ok (some f)) (hz : resolveZone parts = .ok (some z)) :
    afterMatch n parts = .ok (assemble f z) := by
  unfold afterMatch
  rw [hf]
  simp only [Except.bind, hz]

theorem afterMatch_no_zone (n : Layout) (parts : List (List Char))
    (hb : n.nday < parts.length ∧ n.nyear < parts.length ∧ n.nhour < parts.length ∧
      n.nmin < parts.length ∧ n.nsec < parts.length ∧ n.nmonth < parts.length ∧
      n.nwday < parts.length)
    (hz : resolveZone parts = .ok none) :
    afterMatch n parts = .ok none := by
  obtain ⟨f, hf⟩ := readFields_ok n parts hb.1 hb.2.1 hb.2.2.1 hb.2.2.2.1 hb.2.2.2.2.1
    hb.2.2.2.2.2.1 hb.2.2.2.2.2.2
  unfold afterMatch
  rw [hf]
  cases f with
  | none => rfl
  | some fields => simp only [Except.bind, hz]

theorem recognise_matchDialect (str : List Char) (n : Layout) (parts : List (List Char))
    (h : recognise str = .ok (some (n, parts))) : matchDialect str = some (n, parts) := by
  unfold matchDialect
  rcases recognise_cases str with h' | ⟨hm, h'⟩ | ⟨hm, ho, h'⟩
  · rw [h'] at h; cases h
  · rw [h'] at h; cases h; rw [if_pos hm]
  · rw [h'] at h; cases h; rw [if_neg hm, if_pos ho]

theorem matchDialect_bounds (str : List Char) (n : Layout) (parts : List (List Char))
    (h : matchDialect str = some (n, parts)) :
    n.nday < parts.length ∧ n.nyear < parts.length ∧ n.nhour < parts.length ∧
    n.nmin < parts.length ∧ n.nsec < parts.length ∧ n.nmonth < parts.length ∧
    n.nwday < parts.length := by
  unfold matchDialect at h
  split at h
  · cases h
    have hlen : (rxModern.capturedTexts str).length = 11 := capturedTexts_length rxModern _
    simp only [modernLayout, hlen]
    exact ⟨by omega, by omega, by omega, by omega, by omega, by omega, by omega⟩
  · split at h
    · cases h
      have hlen : (rxObsolete.capturedTexts str).length = 8 :=
        capturedTexts_length rxObsolete _
      simp only [obsoleteLayout, hlen]
      exact ⟨by omega, by omega, by omega, by omega, by omega, by omega, by omega⟩
    · cases h

/-- A text of either dialect gives the absent value or what lines 162-253
compute from the captured texts. -/
theorem parseDateChars_dialect (string : List Char) (n : Layout) (parts : List (List Char))
    (h : matchDialect (trimmed string) = some (n, parts)) :
    parseDateChars string = .ok none ∨ parseDateChars string = afterMatch n parts := by
  rcases recognise_cases (trimmed string) with h' | ⟨hm, h'⟩ | ⟨hm, ho, h'⟩
  · left
    rw [parseDateChars_eq]
    split
    · rfl
    · rw [h']; rfl
  · right
    have := recognise_matchDialect _ _ _ h'
    rw [h] at this
    cases this
    exact parseDateChars_recognised _ _ _ h'
  · right
    have := recognise_matchDialect _ _ _ h'
    rw [h] at this
    cases this
    exact parseDateChars_recognised _ _ _ h'

/-! ## Separators -/

/-- C13. For every string matched by the modern expression in which exactly one
of the two date gaps (day-month, month-year) is a hyphen, `parseDate` returns
the absent value. -/
theorem parseDate_mixed_separators (string : String) (parts : List (List Char))
    (hm : rxModern.indexOf (trimmed string.toList) = 0)
    (hparts : rxModern.capturedTexts (trimmed string.toList) = parts)
    (hmix : (parts.getD 3 [] = ['-'] ∧ parts.getD 5 [] ≠ ['-']) ∨
      (parts.getD 3 [] ≠ ['-'] ∧ parts.getD 5 [] = ['-'])) :
    parseDate string = .ok none := by
  unfold parseDate
  rw [parseDateChars_modern _ hm, hparts]
  have hne : ¬(parts.getD 3 [] = ['-'] ↔ parts.getD 5 [] = ['-']) := by
    rcases hmix with ⟨h3, h5⟩ | ⟨h3, h5⟩
    · exact fun h => h5 (h.mp h3)
    · exact fun h => h3 (h.mpr h5)
  rw [if_neg hne]

/-- The claim C13 at `"06-Nov 1994 08:49:37 GMT"` and at
`"Sun, 06 Nov-1994 08:49:37 +0000"`, while `"06-Nov-1994 08:49:37 GMT"`, with
two hyphens, is accepted. -/
theorem parseDate_mixed_separators_witness :
    parseDate "06-Nov 1994 08:49:37 GMT" = .ok none ∧
    parseDate "Sun, 06 Nov-1994 08:49:37 +0000" = .ok none ∧
    parseDate "06-Nov-1994 08:49:37 GMT" =
      .ok (some ⟨⟨1994, 11, 6⟩, ⟨8, 49, 37⟩, .UTC⟩) :=
  ⟨parseDate_mixed_separators "06-Nov 1994 08:49:37 GMT"
      ["06-Nov 1994 08:49:37 GMT".toList, [], "06".toList, "-".toList, "Nov".toList,
        " ".toList, "1994".toList, "08".toList, "49".toList, "37".toList, "GMT".toList]
      (by decide) (by decide) (Or.inl (by decide)),
    parseDate_mixed_separators "Sun, 06 Nov-1994 08:49:37 +0000"
      ["Sun, 06 Nov-1994 08:49:37 +0000".toList, "Sun".toList, "06".toList, " ".toList,
        "Nov".toList, "-".toList, "1994".toList, "08".toList, "49".toList, "37".toList,
        "+0000".toList]
      (by decide) (by decide) (Or.inr (by decide)),
    by decide⟩

/-! ## Zones -/

theorem resolveZone_numeric (parts : List (List Char)) (hlen : parts.length = 11)
    (hoff : rxOffset.indexOf (parts.getD 10 []) = 0) :
    resolveZone parts =
      match toInt ((rxOffset.capturedTexts (parts.getD 10 [])).getD 2 []),
        toInt ((rxOffset.capturedTexts (parts.getD 10 [])).getD 3 []) with
      | some hh, some offsetMin =>
        if offsetMin > 59 then .ok none
        else
          .ok (some
            { offset :=
                if (rxOffset.capturedTexts (parts.getD 10 [])).getD 1 [] = ['-'] then
                  -(hh * 3600 + offsetMin * 60)
                else hh * 3600 + offsetMin * 60,
              negOffset :=
                decide ((rxOffset.capturedTexts (parts.getD 10 [])).getD 1 [] = ['-']) })
      | _, _ => .ok none := by
  have h4 : (rxOffset.capturedTexts (parts.getD 10 [])).length = 4 :=
    capturedTexts_length rxOffset _
  unfold resolveZone
  rw [if_pos (by omega), partAt_eq _ 10 (by omega)]
  simp only [Except.bind]
  rw [if_pos hoff, partAt_eq _ 2 (by omega), partAt_eq _ 3 (by omega),
    partAt_eq _ 1 (by omega)]
  simp only []
  split
  · split <;> simp_all
  · simp_all

theorem resolveZone_name (parts : List (List Char)) (hlen : parts.length = 11)
    (hoff : rxOffset.indexOf (parts.getD 10 []) ≠ 0) :
    resolveZone parts = .ok (resolveZoneName (parts.getD 10 [])) := by
  unfold resolveZone
  rw [if_pos (by omega), partAt_eq _ 10 (by omega)]
  simp only [Except.bind]
  rw [if_neg hoff]

/-- C16. For every string matched by the modern expression whose zone is matched
by the numeric-zone expression and has a minute part above 59, `parseDate`
returns the absent value, whatever the other fields are. -/
theorem parseDate_offset_minutes (string : String) (parts : List (List Char)) (mm : Int)
    (hm : rxModern.indexOf (trimmed string.toList) = 0)
    (hparts : rxModern.capturedTexts (trimmed string.toList) = parts)
    (hoff : rxOffset.indexOf (parts.getD 10 []) = 0)
    (hmm : toInt ((rxOffset.capturedTexts (parts.getD 10 [])).getD 3 []) = some mm)
    (hgt : mm > 59) :
    parseDate string = .ok none := by
  have hlen : parts.length = 11 := by
    rw [← hparts]; exact capturedTexts_length rxModern _
  have hz : resolveZone parts = .ok none := by
    rw [resolveZone_numeric parts hlen hoff, hmm]
    split
    · next hh offsetMin h2 h3 =>
      injection h3 with h3
      subst h3
      rw [if_pos hgt]
    · rfl
  unfold parseDate
  rw [parseDateChars_modern _ hm, hparts]
  split
  · exact afterMatch_no_zone modernLayout parts
      (by simp only [modernLayout, hlen]
          exact ⟨by omega, by omega, by omega, by omega, by omega, by omega, by omega⟩) hz
  · rfl

/-- The claim C16 at `"Sun, 06 Nov 1994 08:49:37 +0160"` and at
`"31 Feb 1994 25:00 -0099"`. -/
theorem parseDate_offset_minutes_witness :
    parseDate "Sun, 06 Nov 1994 08:49:37 +0160" = .ok none ∧
    parseDate "31 Feb 1994 25:00 -0099" = .ok none :=
  ⟨parseDate_offset_minutes "Sun, 06 Nov 1994 08:49:37 +0160"
      ["Sun, 06 Nov 1994 08:49:37 +0160".toList, "Sun".toList, "06".toList, " ".toList,
        "Nov".toList, " ".toList, "1994".toList, "08".toList, "49".toList, "37".toList,
        "+0160".toList]
      60 (by decide) (by decide) (by decide) (by decide) (by decide),
    parseDate_offset_minutes "31 Feb 1994 25:00 -0099"
      ["31 Feb 1994 25:00 -0099".toList, [], "31".toList, " ".toList, "Feb".toList,
        " ".toList, "1994".toList, "25".toList, "00".toList, [], "-0099".toList]
      99 (by decide) (by decide) (by decide) (by decide) (by decide)⟩

/-- C15, the code at `"06 Nov 1994 08:49:37 EST"`. The zone is resolved to an
offset of -5 hours (the table of lines 218-222 holds the eight offsets the claim
lists), but the timestamp returned is 1994-11-06 08:49:37 in local time, the
offset not applied: it denotes 13:49:37 UTC only on a machine whose own zone is
5 hours west of UTC, and on a machine at UTC it denotes 08:49:37 UTC. -/
theorem parseDate_named_zone_dropped (localOffset : Int) :
    (namedOffset (cstr "EDT") = -4 * 3600 ∧ namedOffset (cstr "EST") = -5 * 3600 ∧
      namedOffset (cstr "CDT") = -5 * 3600 ∧ namedOffset (cstr "CST") = -6 * 3600 ∧
      namedOffset (cstr "MDT") = -6 * 3600 ∧ namedOffset (cstr "MST") = -7 * 3600 ∧
      namedOffset (cstr "PDT") = -7 * 3600 ∧ namedOffset (cstr "PST") = -8 * 3600) ∧
    resolveZone (rxModern.capturedTexts (trimmed "06 Nov 1994 08:49:37 EST".toList)) =
      .ok (some { offset := -18000, negOffset := false }) ∧
    parseDate "06 Nov 1994 08:49:37 EST" =
      .ok (some ⟨⟨1994, 11, 6⟩, ⟨8, 49, 37⟩, .LocalTime⟩) ∧
    (DateTime.utcSeconds localOffset ⟨⟨1994, 11, 6⟩, ⟨8, 49, 37⟩, .LocalTime⟩ =
        DateTime.utcSeconds localOffset ⟨⟨1994, 11, 6⟩, ⟨13, 49, 37⟩, .UTC⟩ ↔
      localOffset = -18000) ∧
    DateTime.utcSeconds 0 ⟨⟨1994, 11, 6⟩, ⟨8, 49, 37⟩, .LocalTime⟩ =
      DateTime.utcSeconds 0 ⟨⟨1994, 11, 6⟩, ⟨8, 49, 37⟩, .UTC⟩ := by
  refine ⟨by decide, by decide, by decide, ?_, by decide⟩
  have h1 : DateTime.writtenSeconds ⟨⟨1994, 11, 6⟩, ⟨8, 49, 37⟩, .LocalTime⟩ =
      DateTime.writtenSeconds ⟨⟨1994, 11, 6⟩, ⟨13, 49, 37⟩, .UTC⟩ - 18000 := by decide
  simp only [DateTime.utcSeconds, h1]
  omega

/-- What lines 162-253 give for captured texts whose numbers are readable and in
range (a written second of 60 included) and whose weekday name, if any, agrees
with the date. -/
theorem afterMatch_wellformed (n : Layout) (parts : List (List Char))
    (hb : n.nday < parts.length ∧ n.nyear < parts.length ∧ n.nhour < parts.length ∧
      n.nmin < parts.length ∧ n.nsec < parts.length ∧ n.nmonth < parts.length ∧
      n.nwday < parts.length)
    (day year hour minute second : Int) (z : Zone)
    (hday : toInt (parts.getD n.nday []) = some day)
    (hyear : toInt (parts.getD n.nyear []) = some year)
    (hhour : toInt (parts.getD n.nhour []) = some hour)
    (hminute : toInt (parts.getD n.nmin []) = some minute)
    (hsecond : (parts.getD n.nsec [] = [] ∧ second = 0) ∨
      toInt (parts.getD n.nsec []) = some second)
    (hz : resolveZone parts = .ok (some z))
    (hdate : dateIsValid (adjustYear (parts.getD n.nyear []).length year)
      ((scanTable (parts.getD n.nmonth []) shortMonth : Int) + 1) day = true)
    (htime : hour < 24 ∧ minute < 60 ∧ second ≤ 60)
    (hwday : parts.getD n.nwday [] = [] ∨ ∃ k : Nat, k < 7 ∧
      QDate.dayOfWeek ⟨adjustYear (parts.getD n.nyear []).length year,
        (scanTable (parts.getD n.nmonth []) shortMonth : Int) + 1, day⟩ = (k : Int) + 1 ∧
      (parts.getD n.nwday [] = (shortDay.getD k "").toList ∨
        parts.getD n.nwday [] = (longDay.getD k "").toList)) :
    afterMatch n parts =
      .ok (if second = 60 ∧
            (hour * 3600 + minute * 60 + 60 - z.offset + 86400 * 5).tmod 86400 ≠ 0 then
          none
        else
          some ⟨⟨adjustYear (parts.getD n.nyear []).length year,
              (scanTable (parts.getD n.nmonth []) shortMonth : Int) + 1, day⟩,
            ⟨hour, minute, if second = 60 then 59 else second⟩,
            if z.offset = 0 then .UTC else .LocalTime⟩) := by
  have hsec0 : 0 ≤ second := by
    rcases hsecond with ⟨_, h⟩ | h
    · omega
    · exact toInt_nonneg _ _ h
  rw [afterMatch_of n parts _ z
    (readFields_of_texts n parts hb day year hour minute second hday hyear hhour hminute
      hsecond) hz]
  rw [assemble_eq]
  · simp only [decide_eq_true_eq]
  · exact hdate
  · refine ⟨toInt_nonneg _ _ hhour, htime.1, toInt_nonneg _ _ hminute, htime.2.1, ?_, ?_⟩
    · show 0 ≤ (if second = 60 then 59 else second)
      split <;> omega
    · show (if second = 60 then 59 else second) < 60
      split <;> omega
  · show lookupWeekday (parts.getD n.nwday []) = -1 ∨ _
    rcases hwday with h | ⟨k, hk, hdow, h | h⟩
    · left; rw [h]; exact lookupWeekday_nil
    · right
      show _ = lookupWeekday (parts.getD n.nwday []) + 1
      rw [h, lookupWeekday_shortDay k hk]; exact hdow
    · right
      show _ = lookupWeekday (parts.getD n.nwday []) + 1
      rw [h, lookupWeekday_longDay k hk]; exact hdow

theorem any_not_isalpha (zone : List Nat) (h : zone.all isalpha = true) :
    zone.any (fun b => !isalpha b) = false := by
  induction zone with
  | nil => rfl
  | cons b bs ih =>
    rw [List.all_cons, Bool.and_eq_true] at h
    rw [List.any_cons, ih h.2, h.1]
    rfl

theorem namedOffset_unknown (zone : List Nat)
    (h : ∀ name ∈ knownZones, zone ≠ cstr name) : namedOffset zone = 0 := by
  unfold namedOffset
  rw [if_neg (h "EDT" (by decide)),
    if_neg (fun hh => hh.elim (h "EST" (by decide)) (h "CDT" (by decide))),
    if_neg (fun hh => hh.elim (h "CST" (by decide)) (h "MDT" (by decide))),
    if_neg (fun hh => hh.elim (h "MST" (by decide)) (h "PDT" (by decide))),
    if_neg (h "PST" (by decide))]

theorem resolveZoneName_alpha (text : List Char)
    (hall : (toLatin1 text).all isalpha = true)
    (hnot : ∀ name ∈ knownZones, toLatin1 text ≠ cstr name) :
    resolveZoneName text = some { offset := 0, negOffset := true } := by
  unfold resolveZoneName
  dsimp only
  split
  · rfl
  · rw [if_pos ⟨hnot "UT" (by decide), hnot "GMT" (by decide)⟩,
      namedOffset_unknown _ hnot, if_pos rfl, any_not_isalpha _ hall]
    rfl

theorem knownZones_alpha :
    ∀ name ∈ knownZones, (cstr name).any (fun b => !isalpha b) = false := by
  decide

theorem resolveZoneName_nonalpha (text : List Char)
    (hany : (toLatin1 text).any (fun b => !isalpha b) = true) :
    resolveZoneName text = none := by
  have hnot : ∀ name ∈ knownZones, toLatin1 text ≠ cstr name := by
    intro name hmem heq
    rw [heq, knownZones_alpha name hmem] at hany
    cases hany
  have hfirst : ¬((toLatin1 text).length = 1 ∧ isalpha ((toLatin1 text).getD 0 0) = true ∧
      toupper ((toLatin1 text).getD 0 0) ≠ 74) := by
    rintro ⟨hlen, ha, _⟩
    match hz : toLatin1 text, hlen with
    | [b], _ =>
      rw [hz] at hany ha
      simp only [List.any_cons, List.any_nil, Bool.or_false, List.getD_cons_zero] at hany ha
      rw [ha] at hany
      cases hany
  unfold resolveZoneName
  dsimp only
  rw [if_neg hfirst, if_pos ⟨hnot "UT" (by decide), hnot "GMT" (by decide)⟩,
    namedOffset_unknown _ hnot, if_pos rfl, hany]
  rfl

theorem modern_bounds (parts : List (List Char)) (hlen : parts.length = 11) :
    modernLayout.nday < parts.length ∧ modernLayout.nyear < parts.length ∧
    modernLayout.nhour < parts.length ∧ modernLayout.nmin < parts.length ∧
    modernLayout.nsec < parts.length ∧ modernLayout.nmonth < parts.length ∧
    modernLayout.nwday < parts.length := by
  simp only [modernLayout, hlen]
  exact ⟨by omega, by omega, by omega, by omega, by omega, by omega, by omega⟩

/-- C14, as stated, fails: `"6-Nov 1994 08:49:37 XYZ"` is matched by the modern
expression, its date and time fields are valid and its zone `XYZ` is
alphabetic and unknown, yet `parseDate` returns the absent value, because one
date gap is a hyphen and the other a blank. -/
theorem parseDate_unknown_zone_mixed_separators :
    rxModern.indexOf (trimmed "6-Nov 1994 08:49:37 XYZ".toList) = 0 ∧
    rxModern.capturedTexts (trimmed "6-Nov 1994 08:49:37 XYZ".toList) =
      ["6-Nov 1994 08:49:37 XYZ".toList, [], "6".toList, "-".toList, "Nov".toList,
        " ".toList, "1994".toList, "08".toList, "49".toList, "37".toList, "XYZ".toList] ∧
    rxOffset.indexOf "XYZ".toList ≠ 0 ∧
    (toLatin1 "XYZ".toList).all isalpha = true ∧
    (∀ name ∈ knownZones, toLatin1 "XYZ".toList ≠ cstr name) ∧
    dateIsValid 1994 11 6 = true ∧
    parseDate "6-Nov 1994 08:49:37 XYZ" = .ok none := by
  decide

/-- C14, amended. For every string matched by the modern expression whose zone
is not matched by the numeric-zone expression: if the two date gaps are both a
hyphen or both white space, the zone is made of ASCII letters only and is none
of `UT`, `GMT` and the eight North American abbreviations, the day, year, hour
and minute are read as numbers, the month is one of the twelve short names, the
date is a valid one, the hour is below 24, the minute below 60 and the second
(0 when not written) below 60, and the weekday name, if any, is the short or
the long name of the day of the week of that date, then `parseDate` returns a
present timestamp marked UTC with the written fields; and if the zone contains
a character that is not an ASCII letter, `parseDate` returns the absent value. -/
theorem parseDate_unknown_zone (string : String) (parts : List (List Char))
    (hm : rxModern.indexOf (trimmed string.toList) = 0)
    (hparts : rxModern.capturedTexts (trimmed string.toList) = parts)
    (hnum : rxOffset.indexOf (parts.getD 10 []) ≠ 0) :
    (∀ (day year hour minute second : Int) (month : Nat),
      (parts.getD 3 [] = ['-'] ↔ parts.getD 5 [] = ['-']) →
      (toLatin1 (parts.getD 10 [])).all isalpha = true →
      (∀ name ∈ knownZones, toLatin1 (parts.getD 10 []) ≠ cstr name) →
      toInt (parts.getD 2 []) = some day →
      (month < 12 ∧ parts.getD 4 [] = (shortMonth.getD month "").toList) →
      toInt (parts.getD 6 []) = some year →
      toInt (parts.getD 7 []) = some hour →
      toInt (parts.getD 8 []) = some minute →
      ((parts.getD 9 [] = [] ∧ second = 0) ∨ toInt (parts.getD 9 []) = some second) →
      dateIsValid (adjustYear (parts.getD 6 []).length year) ((month : Int) + 1) day = true →
      (hour < 24 ∧ minute < 60 ∧ second < 60) →
      (parts.getD 1 [] = [] ∨ ∃ k : Nat, k < 7 ∧
        QDate.dayOfWeek ⟨adjustYear (parts.getD 6 []).length year, (month : Int) + 1, day⟩
          = (k : Int) + 1 ∧
        (parts.getD 1 [] = (shortDay.getD k "").toList ∨
          parts.getD 1 [] = (longDay.getD k "").toList)) →
      parseDate string =
        .ok (some ⟨⟨adjustYear (parts.getD 6 []).length year, (month : Int) + 1, day⟩,
          ⟨hour, minute, second⟩, .UTC⟩)) ∧
    ((toLatin1 (parts.getD 10 [])).any (fun b => !isalpha b) = true →
      parseDate string = .ok none) := by
  have hlen : parts.length = 11 := by
    rw [← hparts]; exact capturedTexts_length rxModern _
  have hb := modern_bounds parts hlen
  constructor
  · intro day year hour minute second month hsep halpha hnot hday hmonth hyear hhour
      hminute hsecond hdate htime hwday
    have hz : resolveZone parts = .ok (some { offset := 0, negOffset := true }) := by
      rw [resolveZone_name parts hlen hnum, resolveZoneName_alpha _ halpha hnot]
    have hscan : scanTable (parts.getD 4 []) shortMonth = month := by
      rw [hmonth.2]; exact scanTable_shortMonth month hmonth.1
    unfold parseDate
    rw [parseDateChars_modern _ hm, hparts, if_pos hsep,
      afterMatch_wellformed modernLayout parts hb day year hour minute second _
        hday hyear hhour hminute hsecond hz
        (by show dateIsValid _ ((scanTable (parts.getD 4 []) shortMonth : Int) + 1) _ = true
            rw [hscan]; exact hdate)
        ⟨htime.1, htime.2.1, by omega⟩
        (by show parts.getD 1 [] = [] ∨ ∃ k : Nat, k < 7 ∧
              QDate.dayOfWeek ⟨_, (scanTable (parts.getD 4 []) shortMonth : Int) + 1, _⟩
                = (k : Int) + 1 ∧ _
            rw [hscan]; exact hwday)]
    have hne : second ≠ 60 := by omega
    simp only [modernLayout, hne, false_and, if_false, hscan]
    rfl
  · intro hany
    have hz : resolveZone parts = .ok none := by
      rw [resolveZone_name parts hlen hnum, resolveZoneName_nonalpha _ hany]
    unfold parseDate
    rw [parseDateChars_modern _ hm, hparts]
    split
    · exact afterMatch_no_zone modernLayout parts hb hz
    · rfl

/-- The amended C14 at `"6 Nov 1994 08:49:37 XYZ"`, which gives 1994-11-06
08:49:37 UTC, and at `"6 Nov 1994 08:49:37 +01:00"`, which gives the absent
value. -/
theorem parseDate_unknown_zone_witness :
    parseDate "6 Nov 1994 08:49:37 XYZ" =
      .ok (some ⟨⟨1994, 11, 6⟩, ⟨8, 49, 37⟩, .UTC⟩) ∧
    parseDate "6 Nov 1994 08:49:37 +01:00" = .ok none :=
  ⟨(parseDate_unknown_zone "6 Nov 1994 08:49:37 XYZ"
      ["6 Nov 1994 08:49:37 XYZ".toList, [], "6".toList, " ".toList, "Nov".toList,
        " ".toList, "1994".toList, "08".toList, "49".toList, "37".toList, "XYZ".toList]
      (by decide) (by decide) (by decide)).1 6 1994 8 49 37 10 (by decide) (by decide)
      (by decide) (by decide) (by decide) (by decide) (by decide) (by decide) (by decide)
      (by decide) (by decide) (Or.inl (by decide)),
    (parseDate_unknown_zone "6 Nov 1994 08:49:37 +01:00"
      ["6 Nov 1994 08:49:37 +01:00".toList, [], "6".toList, " ".toList, "Nov".toList,
        " ".toList, "1994".toList, "08".toList, "49".toList, "37".toList, "+01:00".toList]
      (by decide) (by decide) (by decide)).2 (by decide)⟩

/-! ## Leap seconds -/

theorem parseDateChars_separated (string : List Char) (n : Layout)
    (parts : List (List Char))
    (hd : matchDialect (trimmed string) = some (n, parts))
    (hsep : n = modernLayout → (parts.getD 3 [] = ['-'] ↔ parts.getD 5 [] = ['-'])) :
    parseDateChars string = afterMatch n parts := by
  unfold matchDialect at hd
  split at hd
  · next hm =>
    cases hd
    rw [parseDateChars_modern _ hm, if_pos (hsep rfl)]
  · next hm =>
    split at hd
    · next ho =>
      cases hd
      apply parseDateChars_recognised
      unfold recognise
      rw [if_neg hm, if_neg (fun h => h ho)]
    · cases hd

/-- C12. For every string of either dialect whose seconds are written 60 and
which is otherwise well formed (separators alike, numbers readable, a valid
date, hour below 24, minute below 60, the weekday name, if any, that of the
date, and a zone that resolves to an offset), `parseDate` returns a present
timestamp if and only if hour*3600 + minute*60 + 60 - offset is a multiple of
86400; and a timestamp it returns has 59 for its seconds. -/
theorem parseDate_leap_second (string : String) (n : Layout) (parts : List (List Char))
    (day year hour minute : Int) (z : Zone)
    (hd : matchDialect (trimmed string.toList) = some (n, parts))
    (hsep : n = modernLayout → (parts.getD 3 [] = ['-'] ↔ parts.getD 5 [] = ['-']))
    (hday : toInt (parts.getD n.nday []) = some day)
    (hyear : toInt (parts.getD n.nyear []) = some year)
    (hhour : toInt (parts.getD n.nhour []) = some hour)
    (hminute : toInt (parts.getD n.nmin []) = some minute)
    (hsecond : toInt (parts.getD n.nsec []) = some 60)
    (hz : resolveZone parts = .ok (some z))
    (hdate : dateIsValid (adjustYear (parts.getD n.nyear []).length year)
      ((scanTable (parts.getD n.nmonth []) shortMonth : Int) + 1) day = true)
    (htime : hour < 24 ∧ minute < 60)
    (hwday : parts.getD n.nwday [] = [] ∨ ∃ k : Nat, k < 7 ∧
      QDate.dayOfWeek ⟨adjustYear (parts.getD n.nyear []).length year,
        (scanTable (parts.getD n.nmonth []) shortMonth : Int) + 1, day⟩ = (k : Int) + 1 ∧
      (parts.getD n.nwday [] = (shortDay.getD k "").toList ∨
        parts.getD n.nwday [] = (longDay.getD k "").toList)) :
    ((∃ t, parseDate string = .ok (some t)) ↔
      (86400 : Int) ∣ hour * 3600 + minute * 60 + 60 - z.offset) ∧
    (∀ t, parseDate string = .ok (some t) → t.time.second = 59) := by
  have hb := matchDialect_bounds _ _ _ hd
  have hres := afterMatch_wellformed n parts hb day year hour minute 60 z hday hyear hhour
    hminute (Or.inr hsecond) hz hdate ⟨htime.1, htime.2, le_refl 60⟩ hwday
  have hpd : parseDate string = afterMatch n parts := parseDateChars_separated _ _ _ hd hsep
  have key : (hour * 3600 + minute * 60 + 60 - z.offset + 86400 * 5).tmod 86400 = 0 ↔
      (86400 : Int) ∣ hour * 3600 + minute * 60 + 60 - z.offset := by
    rw [← Int.dvd_iff_tmod_eq_zero]
    omega
  rw [hpd, hres]
  by_cases hk : (hour * 3600 + minute * 60 + 60 - z.offset + 86400 * 5).tmod 86400 = 0
  · have hc : ¬((60 : Int) = 60 ∧
        (hour * 3600 + minute * 60 + 60 - z.offset + 86400 * 5).tmod 86400 ≠ 0) :=
      fun h => h.2 hk
    rw [if_neg hc]
    refine ⟨⟨fun _ => key.mp hk, fun _ => ⟨_, rfl⟩⟩, ?_⟩
    intro t ht
    injection ht with ht
    injection ht with ht
    rw [← ht]
    rfl
  · have hc : (60 : Int) = 60 ∧
        (hour * 3600 + minute * 60 + 60 - z.offset + 86400 * 5).tmod 86400 ≠ 0 :=
      ⟨rfl, hk⟩
    rw [if_pos hc]
    refine ⟨⟨fun h => ?_, fun h => absurd (key.mpr h) hk⟩, ?_⟩
    · obtain ⟨t, ht⟩ := h
      injection ht with ht
      cases ht
    · intro t ht
      injection ht with ht
      cases ht

/-- The claim C12 at `"31 Dec 1998 23:59:60 GMT"` (present, with second 59), at
`"31 Dec 1998 15:59:60 -0800"` (present: 23:59:60 UTC) and at
`"31 Dec 1998 15:59:60 GMT"` (absent). -/
theorem parseDate_leap_second_witness :
    parseDate "31 Dec 1998 23:59:60 GMT" =
      .ok (some ⟨⟨1998, 12, 31⟩, ⟨23, 59, 59⟩, .UTC⟩) ∧
    (∃ t, parseDate "31 Dec 1998 15:59:60 -0800" = .ok (some t)) ∧
    ¬(∃ t, parseDate "31 Dec 1998 15:59:60 GMT" = .ok (some t)) :=
  ⟨by decide,
    (parseDate_leap_second "31 Dec 1998 15:59:60 -0800" modernLayout
      ["31 Dec 1998 15:59:60 -0800".toList, [], "31".toList, " ".toList, "Dec".toList,
        " ".toList, "1998".toList, "15".toList, "59".toList, "60".toList, "-0800".toList]
      31 1998 15 59 { offset := -28800, negOffset := true }
      (by decide) (by decide) (by decide) (by decide) (by decide) (by decide) (by decide)
      (by decide) (by decide) (by decide) (Or.inl (by decide))).1.mpr (by decide),
    fun h => absurd
      ((parseDate_leap_second "31 Dec 1998 15:59:60 GMT" modernLayout
        ["31 Dec 1998 15:59:60 GMT".toList, [], "31".toList, " ".toList, "Dec".toList,
          " ".toList, "1998".toList, "15".toList, "59".toList, "60".toList, "GMT".toList]
        31 1998 15 59 { offset := 0, negOffset := false }
        (by decide) (by decide) (by decide) (by decide) (by decide) (by decide) (by decide)
        (by decide) (by decide) (by decide) (Or.inl (by decide))).1.mp h) (by decide)⟩

/-! ## Values out of range -/

theorem toInt_nil : toInt [] = none := by decide

theorem afterMatch_bad (n : Layout) (parts : List (List Char))
    (hb : n.nday < parts.length ∧ n.nyear < parts.length ∧ n.nhour < parts.length ∧
      n.nmin < parts.length ∧ n.nsec < parts.length ∧ n.nmonth < parts.length ∧
      n.nwday < parts.length)
    (hbad :
      (∀ day year, toInt (parts.getD n.nday []) = some day →
        toInt (parts.getD n.nyear []) = some year →
        dateIsValid (adjustYear (parts.getD n.nyear []).length year)
          ((scanTable (parts.getD n.nmonth []) shortMonth : Int) + 1) day = false) ∨
      (∃ hour, toInt (parts.getD n.nhour []) = some hour ∧ hour > 23) ∨
      (∃ minute, toInt (parts.getD n.nmin []) = some minute ∧ minute > 59) ∨
      (∃ second, toInt (parts.getD n.nsec []) = some second ∧ second > 60)) :
    afterMatch n parts = .ok none := by
  obtain ⟨fo, hf⟩ := readFields_ok n parts hb.1 hb.2.1 hb.2.2.1 hb.2.2.2.1 hb.2.2.2.2.1
    hb.2.2.2.2.2.1 hb.2.2.2.2.2.2
  cases fo with
  | none => unfold afterMatch; rw [hf]; rfl
  | some f =>
    obtain ⟨zo, hz⟩ := resolveZone_ok parts
    cases zo with
    | none => exact afterMatch_no_zone n parts hb hz
    | some z =>
      rw [afterMatch_of n parts f z hf hz]
      cases ha : assemble f z with
      | none => rfl
      | some t =>
        exfalso
        obtain ⟨hdv, ht, _, _, _⟩ := assemble_inv f z t ha
        obtain ⟨day, year, hour, minute, second, hday, hyear, hhour, hminute, hsecond, rfl⟩ :=
          readFields_inv n parts hb f hf
        rcases hbad with h | ⟨hour', hh', hgt⟩ | ⟨minute', hm', hgt⟩ | ⟨second', hs', hgt⟩
        · rw [h day year hday hyear] at hdv
          cases hdv
        · rw [hhour] at hh'
          injection hh' with hh'
          have := ht.2.1
          simp only [] at this
          omega
        · rw [hminute] at hm'
          injection hm' with hm'
          have := ht.2.2.2.1
          simp only [] at this
          omega
        · have hsec : second = second' := by
            rcases hsecond with ⟨he, _⟩ | hsome
            · rw [he, toInt_nil] at hs'; cases hs'
            · rw [hsome] at hs'
              injection hs'
          have := ht.2.2.2.2.2
          simp only [] at this
          split at this <;> omega

/-- C17. For every string of either dialect whose day is not a valid day of the
named month in the year as parsed, or whose hour is above 23, minute above 59
or second above 60, `parseDate` returns the absent value. -/
theorem parseDate_out_of_range (string : String) (n : Layout) (parts : List (List Char))
    (hd : matchDialect (trimmed string.toList) = some (n, parts))
    (hbad :
      (∃ day year, toInt (parts.getD n.nday []) = some day ∧
        toInt (parts.getD n.nyear []) = some year ∧
        dateIsValid (adjustYear (parts.getD n.nyear []).length year)
          ((scanTable (parts.getD n.nmonth []) shortMonth : Int) + 1) day = false) ∨
      (∃ hour, toInt (parts.getD n.nhour []) = some hour ∧ hour > 23) ∨
      (∃ minute, toInt (parts.getD n.nmin []) = some minute ∧ minute > 59) ∨
      (∃ second, toInt (parts.getD n.nsec []) = some second ∧ second > 60)) :
    parseDate string = .ok none := by
  rcases parseDateChars_dialect _ _ _ hd with h | h
  · exact h
  · unfold parseDate
    rw [h]
    apply afterMatch_bad n parts (matchDialect_bounds _ _ _ hd)
    rcases hbad with ⟨day, year, hday, hyear, hv⟩ | h | h | h
    · left
      intro day' year' hday' hyear'
      rw [hday] at hday'
      rw [hyear] at hyear'
      injection hday' with hday'
      injection hyear' with hyear'
      subst hday' hyear'
      exact hv
    · exact Or.inr (Or.inl h)
    · exact Or.inr (Or.inr (Or.inl h))
    · exact Or.inr (Or.inr (Or.inr h))

/-- The claim C17 at day 0, at 31 April, at 30 February, at 29 February of a
year that is not a leap year (in the obsolete form), and at hour 24, minute 60
and second 61. -/
theorem parseDate_out_of_range_witness :
    parseDate "00 Nov 1994 08:49:37 GMT" = .ok none ∧
    parseDate "31 Apr 1994 08:49:37 GMT" = .ok none ∧
    parseDate "30 Feb 1996 08:49:37 GMT" = .ok none ∧
    parseDate "Wed Feb 29 08:49:37 1995" = .ok none ∧
    parseDate "06 Nov 1994 24:00:00 GMT" = .ok none ∧
    parseDate "06 Nov 1994 08:60:00 GMT" = .ok none ∧
    parseDate "06 Nov 1994 08:49:61 GMT" = .ok none ∧
    parseDate "Thu Feb 29 08:49:37 1996" =
      .ok (some ⟨⟨1996, 2, 29⟩, ⟨8, 49, 37⟩, .UTC⟩) :=
  ⟨parseDate_out_of_range "00 Nov 1994 08:49:37 GMT" modernLayout
      ["00 Nov 1994 08:49:37 GMT".toList, [], "00".toList, " ".toList, "Nov".toList,
        " ".toList, "1994".toList, "08".toList, "49".toList, "37".toList, "GMT".toList]
      (by decide) (Or.inl ⟨0, 1994, by decide, by decide, by decide⟩),
    parseDate_out_of_range "31 Apr 1994 08:49:37 GMT" modernLayout
      ["31 Apr 1994 08:49:37 GMT".toList, [], "31".toList, " ".toList, "Apr".toList,
        " ".toList, "1994".toList, "08".toList, "49".toList, "37".toList, "GMT".toList]
      (by decide) (Or.inl ⟨31, 1994, by decide, by decide, by decide⟩),
    parseDate_out_of_range "30 Feb 1996 08:49:37 GMT" modernLayout
      ["30 Feb 1996 08:49:37 GMT".toList, [], "30".toList, " ".toList, "Feb".toList,
        " ".toList, "1996".toList, "08".toList, "49".toList, "37".toList, "GMT".toList]
      (by decide) (Or.inl ⟨30, 1996, by decide, by decide, by decide⟩),
    parseDate_out_of_range "Wed Feb 29 08:49:37 1995" obsoleteLayout
      ["Wed Feb 29 08:49:37 1995".toList, "Wed".toList, "Feb".toList, "29".toList,
        "08".toList, "49".toList, "37".toList, "1995".toList]
      (by decide) (Or.inl ⟨29, 1995, by decide, by decide, by decide⟩),
    parseDate_out_of_range "06 Nov 1994 24:00:00 GMT" modernLayout
      ["06 Nov 1994 24:00:00 GMT".toList, [], "06".toList, " ".toList, "Nov".toList,
        " ".toList, "1994".toList, "24".toList, "00".toList, "00".toList, "GMT".toList]
      (by decide) (Or.inr (Or.inl ⟨24, by decide, by decide⟩)),
    parseDate_out_of_range "06 Nov 1994 08:60:00 GMT" modernLayout
      ["06 Nov 1994 08:60:00 GMT".toList, [], "06".toList, " ".toList, "Nov".toList,
        " ".toList, "1994".toList, "08".toList, "60".toList, "00".toList, "GMT".toList]
      (by decide) (Or.inr (Or.inr (Or.inl ⟨60, by decide, by decide⟩))),
    parseDate_out_of_range "06 Nov 1994 08:49:61 GMT" modernLayout
      ["06 Nov 1994 08:49:61 GMT".toList, [], "06".toList, " ".toList, "Nov".toList,
        " ".toList, "1994".toList, "08".toList, "49".toList, "61".toList, "GMT".toList]
      (by decide) (Or.inr (Or.inr (Or.inr ⟨61, by decide, by decide⟩))),
    by decide⟩

/-! ## Month names -/

theorem scanTable_not_found (text : List Char) (table : List String)
    (h : ∀ name ∈ table, text ≠ name.toList) : scanTable text table = table.length := by
  induction table with
  | nil => rfl
  | cons name rest ih =>
    unfold scanTable
    rw [if_neg (fun he => h name (List.mem_cons_self _ _) he.symm),
      ih (fun nm hmem => h nm (List.mem_cons_of_mem _ hmem))]
    rfl

theorem dateIsValid_thirteen (year day : Int) :
    dateIsValid year (((12 : Nat) : Int) + 1) day = false := by
  unfold dateIsValid
  split
  · rfl
  · split
    · rfl
    · simp

/-- C19. For every string of either dialect whose month is none of the twelve
three-letter names `Jan` .. `Dec`, `parseDate` returns the absent value (the
table `longMonth` is never consulted), whereas the long weekday names are
accepted: `"Sunday, 06 Nov 1994 08:49:37 GMT"` gives 1994-11-06 08:49:37 UTC. -/
theorem parseDate_unknown_month (string : String) (n : Layout) (parts : List (List Char))
    (hd : matchDialect (trimmed string.toList) = some (n, parts))
    (hmonth : ∀ name ∈ shortMonth, parts.getD n.nmonth [] ≠ name.toList) :
    parseDate string = .ok none ∧
    parseDate "Sunday, 06 Nov 1994 08:49:37 GMT" =
      .ok (some ⟨⟨1994, 11, 6⟩, ⟨8, 49, 37⟩, .UTC⟩) := by
  refine ⟨?_, by decide⟩
  rcases parseDateChars_dialect _ _ _ hd with h | h
  · exact h
  · unfold parseDate
    rw [h]
    apply afterMatch_bad n parts (matchDialect_bounds _ _ _ hd)
    left
    intro day year _ _
    rw [scanTable_not_found _ _ hmonth]
    exact dateIsValid_thirteen _ _

/-- The claim C19 at the full name `November`, at `nov`, and at `NOV` in the
obsolete form. -/
theorem parseDate_unknown_month_witness :
    parseDate "Sun, 06 November 1994 08:49:37 GMT" = .ok none ∧
    parseDate "Sun, 06 nov 1994 08:49:37 GMT" = .ok none ∧
    parseDate "Sun NOV 06 08:49:37 1994" = .ok none :=
  ⟨(parseDate_unknown_month "Sun, 06 November 1994 08:49:37 GMT" modernLayout
      ["Sun, 06 November 1994 08:49:37 GMT".toList, "Sun".toList, "06".toList, " ".toList,
        "November".toList, " ".toList, "1994".toList, "08".toList, "49".toList,
        "37".toList, "GMT".toList]
      (by decide) (by decide)).1,
    (parseDate_unknown_month "Sun, 06 nov 1994 08:49:37 GMT" modernLayout
      ["Sun, 06 nov 1994 08:49:37 GMT".toList, "Sun".toList, "06".toList, " ".toList,
        "nov".toList, " ".toList, "1994".toList, "08".toList, "49".toList,
        "37".toList, "GMT".toList]
      (by decide) (by decide)).1,
    (parseDate_unknown_month "Sun NOV 06 08:49:37 1994" obsoleteLayout
      ["Sun NOV 06 08:49:37 1994".toList, "Sun".toList, "NOV".toList, "06".toList,
        "08".toList, "49".toList, "37".toList, "1994".toList]
      (by decide) (by decide)).1⟩

/-! ## What a present timestamp holds -/

theorem scanTable_le (text : List Char) (table : List String) :
    scanTable text table ≤ table.length := by
  induction table with
  | nil => exact Nat.le_refl 0
  | cons name rest ih =>
    unfold scanTable
    split
    · exact Nat.zero_le _
    · simp only [List.length_cons]; omega

theorem scanTable_found (text : List Char) (table : List String) :
    ∀ k, scanTable text table = k → k < table.length →
      text = (table.getD k "").toList := by
  induction table with
  | nil => intro k _ hk; cases hk
  | cons name rest ih =>
    intro k hs hk
    unfold scanTable at hs
    split at hs
    · next he =>
      subst hs
      exact he.symm
    · cases k with
      | zero => omega
      | succ j =>
        rw [List.getD_cons_succ]
        exact ih j (by omega) (by simpa using hk)

theorem lookupWeekday_found (wday : List Char) (hne : wday ≠ []) :
    ∃ k : Nat, lookupWeekday wday = (k : Int) ∧
      (k < 7 → wday = (shortDay.getD k "").toList ∨ wday = (longDay.getD k "").toList) := by
  have he : wday.isEmpty = false := by
    cases wday with
    | nil => exact absurd rfl hne
    | cons c cs => rfl
  unfold lookupWeekday
  rw [he]
  simp only [Bool.false_eq_true, if_false]
  split
  · exact ⟨scanTable wday longDay, rfl,
      fun hk => Or.inr (scanTable_found wday longDay _ rfl hk)⟩
  · exact ⟨scanTable wday shortDay, rfl,
      fun hk => Or.inl (scanTable_found wday shortDay _ rfl hk)⟩

theorem dayOfWeek_le (d : QDate) : d.dayOfWeek ≤ 7 := by
  unfold QDate.dayOfWeek
  have := Int.tmod_lt_of_pos d.toJulianDay (show (0 : Int) < 7 by decide)
  omega

theorem dateIsValid_month (year month day : Int) (h : dateIsValid year month day = true) :
    0 < month ∧ month ≤ 12 := by
  unfold dateIsValid at h
  split at h
  · cases h
  · split at h
    · cases h
    · simp only [Bool.and_eq_true, decide_eq_true_eq] at h
      exact ⟨h.1.1.2, h.1.2⟩

/-- The decomposition of a present result: the dialect, the numbers read, the
zone resolved, and the timestamp in terms of them. -/
theorem parseDateChars_present_fields (string : List Char) (t : DateTime)
    (h : parseDateChars string = .ok (some t)) :
    ∃ (n : Layout) (parts : List (List Char)) (z : Zone) (day year hour minute second : Int)
      (month : Nat),
      matchDialect (trimmed string) = some (n, parts) ∧
      resolveZone parts = .ok (some z) ∧
      toInt (parts.getD n.nday []) = some day ∧
      (month < 12 ∧ parts.getD n.nmonth [] = (shortMonth.getD month "").toList) ∧
      toInt (parts.getD n.nyear []) = some year ∧
      toInt (parts.getD n.nhour []) = some hour ∧
      toInt (parts.getD n.nmin []) = some minute ∧
      ((parts.getD n.nsec [] = [] ∧ second = 0) ∨
        toInt (parts.getD n.nsec []) = some second) ∧
      t = ⟨⟨adjustYear (parts.getD n.nyear []).length year, (month : Int) + 1, day⟩,
        ⟨hour, minute, if second = 60 then 59 else second⟩,
        if z.offset = 0 then .UTC else .LocalTime⟩ ∧
      (lookupWeekday (parts.getD n.nwday []) ≥ 0 →
        t.date.dayOfWeek = lookupWeekday (parts.getD n.nwday []) + 1) := by
  obtain ⟨n, parts, f, z, hrec, hf, hz, ha⟩ := parseDateChars_present string t h
  have hd := recognise_matchDialect _ _ _ hrec
  have hb := matchDialect_bounds _ _ _ hd
  obtain ⟨day, year, hour, minute, second, hday, hyear, hhour, hminute, hsecond, rfl⟩ :=
    readFields_inv n parts hb f hf
  obtain ⟨hdv, _, hw, _, ht⟩ := assemble_inv _ z t ha
  have hmon := dateIsValid_month _ _ _ hdv
  simp only [] at hmon ht hw
  have hlt : scanTable (parts.getD n.nmonth []) shortMonth < 12 := by omega
  refine ⟨n, parts, z, day, year, hour, minute, second,
    scanTable (parts.getD n.nmonth []) shortMonth, hd, hz, hday,
    ⟨hlt, scanTable_found _ shortMonth _ rfl hlt⟩, hyear, hhour, hminute, hsecond, ht, ?_⟩
  intro h0
  rw [ht]
  exact hw h0

/-- C18. For every input on which `parseDate` returns a present timestamp, the
text is of one of the two dialects, and the timestamp holds the day, hour and
minute as written, the month named, the year as written after the rule of lines
190-194, and the second as written (0 when not written, 59 for a written 60),
none of them shifted by the offset; it is marked UTC if and only if the
resolved offset is zero, and is a local-time value otherwise. -/
theorem parseDate_present_fields (string : String) (t : DateTime)
    (h : parseDate string = .ok (some t)) :
    ∃ (n : Layout) (parts : List (List Char)) (z : Zone) (day year hour minute second : Int)
      (month : Nat),
      matchDialect (trimmed string.toList) = some (n, parts) ∧
      resolveZone parts = .ok (some z) ∧
      toInt (parts.getD n.nday []) = some day ∧
      (month < 12 ∧ parts.getD n.nmonth [] = (shortMonth.getD month "").toList) ∧
      toInt (parts.getD n.nyear []) = some year ∧
      toInt (parts.getD n.nhour []) = some hour ∧
      toInt (parts.getD n.nmin []) = some minute ∧
      ((parts.getD n.nsec [] = [] ∧ second = 0) ∨
        toInt (parts.getD n.nsec []) = some second) ∧
      t.date = ⟨adjustYear (parts.getD n.nyear []).length year, (month : Int) + 1, day⟩ ∧
      t.time = ⟨hour, minute, if second = 60 then 59 else second⟩ ∧
      (t.spec = .UTC ↔ z.offset = 0) ∧ (z.offset ≠ 0 → t.spec = .LocalTime) := by
  obtain ⟨n, parts, z, day, year, hour, minute, second, month, hd, hz, hday, hmonth, hyear,
    hhour, hminute, hsecond, ht, _⟩ := parseDateChars_present_fields string.toList t h
  refine ⟨n, parts, z, day, year, hour, minute, second, month, hd, hz, hday, hmonth, hyear,
    hhour, hminute, hsecond, by rw [ht], by rw [ht], ?_, ?_⟩
  · rw [ht]
    show (if z.offset = 0 then TimeSpec.UTC else TimeSpec.LocalTime) = .UTC ↔ z.offset = 0
    by_cases h0 : z.offset = 0
    · rw [if_pos h0]
      exact ⟨fun _ => h0, fun _ => rfl⟩
    · rw [if_neg h0]
      exact ⟨fun hh => (by cases hh), fun hh => absurd hh h0⟩
  · intro h0
    rw [ht]
    show (if z.offset = 0 then TimeSpec.UTC else TimeSpec.LocalTime) = .LocalTime
    rw [if_neg h0]

/-- The claim C18 at `"Sun, 06 Nov 94 08:49:37 +0100"`: the timestamp is
1994-11-06 08:49:37, not marked UTC, the resolved offset being 3600. -/
theorem parseDate_present_fields_witness :
    parseDate "Sun, 06 Nov 94 08:49:37 +0100" =
      .ok (some ⟨⟨1994, 11, 6⟩, ⟨8, 49, 37⟩, .LocalTime⟩) ∧
    ∃ (n : Layout) (parts : List (List Char)) (z : Zone) (day year hour minute second : Int)
      (month : Nat),
      matchDialect (trimmed "Sun, 06 Nov 94 08:49:37 +0100".toList) = some (n, parts) ∧
      resolveZone parts = .ok (some z) ∧
      toInt (parts.getD n.nday []) = some day ∧
      (month < 12 ∧ parts.getD n.nmonth [] = (shortMonth.getD month "").toList) ∧
      toInt (parts.getD n.nyear []) = some year ∧
      toInt (parts.getD n.nhour []) = some hour ∧
      toInt (parts.getD n.nmin []) = some minute ∧
      ((parts.getD n.nsec [] = [] ∧ second = 0) ∨
        toInt (parts.getD n.nsec []) = some second) ∧
      (⟨⟨1994, 11, 6⟩, ⟨8, 49, 37⟩, .LocalTime⟩ : DateTime).date =
        ⟨adjustYear (parts.getD n.nyear []).length year, (month : Int) + 1, day⟩ ∧
      (⟨⟨1994, 11, 6⟩, ⟨8, 49, 37⟩, .LocalTime⟩ : DateTime).time =
        ⟨hour, minute, if second = 60 then 59 else second⟩ ∧
      ((⟨⟨1994, 11, 6⟩, ⟨8, 49, 37⟩, .LocalTime⟩ : DateTime).spec = .UTC ↔ z.offset = 0) ∧
      (z.offset ≠ 0 →
        (⟨⟨1994, 11, 6⟩, ⟨8, 49, 37⟩, .LocalTime⟩ : DateTime).spec = .LocalTime) :=
  ⟨by decide,
    parseDate_present_fields "Sun, 06 Nov 94 08:49:37 +0100"
      ⟨⟨1994, 11, 6⟩, ⟨8, 49, 37⟩, .LocalTime⟩ (by decide)⟩

/-! ## Weekday names -/

/-- C11. For every string of either dialect that carries a weekday name,
`parseDate` returns a present timestamp only if that name is the short or the
long English name of the day of the week of the date of the timestamp; so a
name that is no weekday name at all gives the absent value, and so does the
name of another day. -/
theorem parseDate_weekday (string : String) (n : Layout) (parts : List (List Char))
    (hd : matchDialect (trimmed string.toList) = some (n, parts))
    (hname : parts.getD n.nwday [] ≠ []) :
    (∀ t, parseDate string = .ok (some t) →
      ∃ k : Nat, k < 7 ∧ t.date.dayOfWeek = (k : Int) + 1 ∧
        (parts.getD n.nwday [] = (shortDay.getD k "").toList ∨
          parts.getD n.nwday [] = (longDay.getD k "").toList)) ∧
    ((∀ k : Nat, k < 7 → parts.getD n.nwday [] ≠ (shortDay.getD k "").toList ∧
        parts.getD n.nwday [] ≠ (longDay.getD k "").toList) →
      parseDate string = .ok none) := by
  have first : ∀ t, parseDate string = .ok (some t) →
      ∃ k : Nat, k < 7 ∧ t.date.dayOfWeek = (k : Int) + 1 ∧
        (parts.getD n.nwday [] = (shortDay.getD k "").toList ∨
          parts.getD n.nwday [] = (longDay.getD k "").toList) := by
    intro t ht
    obtain ⟨n', parts', z, day, year, hour, minute, second, month, hd', _, _, _, _, _, _, _,
      _, hw⟩ := parseDateChars_present_fields string.toList t ht
    rw [hd] at hd'
    cases hd'
    obtain ⟨k, hk, hfound⟩ := lookupWeekday_found _ hname
    have hdow := hw (by rw [hk]; exact Int.ofNat_nonneg k)
    rw [hk] at hdow
    have hle := dayOfWeek_le t.date
    have hk7 : k < 7 := by omega
    exact ⟨k, hk7, hdow, hfound hk7⟩
  refine ⟨first, ?_⟩
  intro hnone
  obtain ⟨r, hr⟩ := parseDate_ok string
  cases r with
  | none => exact hr
  | some t =>
    obtain ⟨k, hk, _, h | h⟩ := first t hr
    · exact absurd h (hnone k hk).1
    · exact absurd h (hnone k hk).2

/-- The claim C11 at `"Sun, 06 Nov 1994 08:49:37 GMT"` and
`"Sunday, 06 Nov 1994 08:49:37 GMT"` (a Sunday: present), at
`"Mon, 06 Nov 1994 08:49:37 GMT"` (another day: absent) and at
`"Xyz Nov 06 08:49:37 1994"` (no weekday name: absent). -/
theorem parseDate_weekday_witness :
    (∃ k : Nat, k < 7 ∧
      (⟨1994, 11, 6⟩ : QDate).dayOfWeek = (k : Int) + 1 ∧
      ("Sun".toList = (shortDay.getD k "").toList ∨
        "Sun".toList = (longDay.getD k "").toList)) ∧
    parseDate "Sunday, 06 Nov 1994 08:49:37 GMT" =
      .ok (some ⟨⟨1994, 11, 6⟩, ⟨8, 49, 37⟩, .UTC⟩) ∧
    parseDate "Mon, 06 Nov 1994 08:49:37 GMT" = .ok none ∧
    parseDate "Xyz Nov 06 08:49:37 1994" = .ok none :=
  ⟨(parseDate_weekday "Sun, 06 Nov 1994 08:49:37 GMT" modernLayout
      ["Sun, 06 Nov 1994 08:49:37 GMT".toList, "Sun".toList, "06".toList, " ".toList,
        "Nov".toList, " ".toList, "1994".toList, "08".toList, "49".toList, "37".toList,
        "GMT".toList]
      (by decide) (by decide)).1 ⟨⟨1994, 11, 6⟩, ⟨8, 49, 37⟩, .UTC⟩ (by decide),
    by decide, by decide,
    (parseDate_weekday "Xyz Nov 06 08:49:37 1994" obsoleteLayout
      ["Xyz Nov 06 08:49:37 1994".toList, "Xyz".toList, "Nov".toList, "06".toList,
        "08".toList, "49".toList, "37".toList, "1994".toList]
      (by decide) (by decide)).2 (by decide)⟩

/-! ## Years written with three or four digits -/

theorem parseDate_same_fields (s s' : String) (parts parts' : List (List Char))
    (year year' : Int)
    (hm : rxModern.indexOf (trimmed s.toList) = 0)
    (hparts : rxModern.capturedTexts (trimmed s.toList) = parts)
    (hm' : rxModern.indexOf (trimmed s'.toList) = 0)
    (hparts' : rxModern.capturedTexts (trimmed s'.toList) = parts')
    (hsame : ∀ i ∈ [1, 2, 3, 4, 5, 7, 8, 9, 10], parts'.getD i [] = parts.getD i [])
    (hy : toInt (parts.getD 6 []) = some year)
    (hy' : toInt (parts'.getD 6 []) = some year')
    (hadj : adjustYear (parts.getD 6 []).length year =
      adjustYear (parts'.getD 6 []).length year') :
    parseDate s = parseDate s' := by
  have hlen : parts.length = 11 := by
    rw [← hparts]; exact capturedTexts_length rxModern _
  have hlen' : parts'.length = 11 := by
    rw [← hparts']; exact capturedTexts_length rxModern _
  unfold parseDate
  rw [parseDateChars_modern _ hm, parseDateChars_modern _ hm', hparts, hparts']
  obtain ⟨p0, p1, p2, p3, p4, p5, p6, p7, p8, p9, p10, rfl⟩ := length_eleven parts hlen
  obtain ⟨q0, q1, q2, q3, q4, q5, q6, q7, q8, q9, q10, rfl⟩ := length_eleven parts' hlen'
  have e1 := hsame 1 (by decide)
  have e2 := hsame 2 (by decide)
  have e3 := hsame 3 (by decide)
  have e4 := hsame 4 (by decide)
  have e5 := hsame 5 (by decide)
  have e7 := hsame 7 (by decide)
  have e8 := hsame 8 (by decide)
  have e9 := hsame 9 (by decide)
  have e10 := hsame 10 (by decide)
  simp only [List.getD_cons_zero, List.getD_cons_succ] at *
  subst e1 e2 e3 e4 e5 e7 e8 e9 e10
  have hfields : readFields modernLayout [p0, q1, q2, q3, q4, q5, p6, q7, q8, q9, q10] =
      readFields modernLayout [q0, q1, q2, q3, q4, q5, q6, q7, q8, q9, q10] := by
    rw [readFields_modern, readFields_modern, hy, hy']
    cases toInt q2 <;> cases toInt q7 <;> cases toInt q8 <;> try rfl
    simp only [hadj]
  unfold afterMatch
  rw [hfields, resolveZone_modern p0 q1 q2 q3 q4 q5 p6 q7 q8 q9 q10 q0 q6]

theorem matchDialect_modern (str : List Char) (hm : rxModern.indexOf str = 0) :
    matchDialect str = some (modernLayout, rxModern.capturedTexts str) := by
  unfold matchDialect
  rw [if_pos hm]

/-- C20. For every string matched by the modern expression whose year is written
with exactly three digits, of value `ddd`, `parseDate` returns what it returns
for a string with the same captured fields apart from the year, written with
four digits and of value 1900 + ddd; and a four-digit year is used as written:
any timestamp returned for a string whose year is written with four digits has
that number for its year, below 1000 or not. -/
theorem parseDate_year_digits (s s' : String) (parts parts' : List (List Char)) (ddd : Int)
    (hm : rxModern.indexOf (trimmed s.toList) = 0)
    (hparts : rxModern.capturedTexts (trimmed s.toList) = parts)
    (hm' : rxModern.indexOf (trimmed s'.toList) = 0)
    (hparts' : rxModern.capturedTexts (trimmed s'.toList) = parts')
    (hsame : ∀ i ∈ [1, 2, 3, 4, 5, 7, 8, 9, 10], parts'.getD i [] = parts.getD i [])
    (h3 : (parts.getD 6 []).length = 3 ∧ toInt (parts.getD 6 []) = some ddd)
    (h4 : (parts'.getD 6 []).length = 4 ∧ toInt (parts'.getD 6 []) = some (1900 + ddd)) :
    parseDate s = parseDate s' ∧
    (∀ (u : String) (year : Int) (t : DateTime),
      rxModern.indexOf (trimmed u.toList) = 0 →
      ((rxModern.capturedTexts (trimmed u.toList)).getD 6 []).length = 4 →
      toInt ((rxModern.capturedTexts (trimmed u.toList)).getD 6 []) = some year →
      parseDate u = .ok (some t) → t.date.year = year) := by
  constructor
  · apply parseDate_same_fields s s' parts parts' ddd (1900 + ddd) hm hparts hm' hparts'
      hsame h3.2 h4.2
    rw [h3.1, h4.1]
    unfold adjustYear
    simp only [show (3 : Nat) < 4 by decide, show ¬((4 : Nat) < 4) by decide,
      show ¬((3 : Nat) = 2 ∧ ddd < 50) from fun h => absurd h.1 (by decide), if_true,
      if_false]
    omega
  · intro u year t hu hlen hyear ht
    obtain ⟨n, parts'', z, day, year', hour, minute, second, month, hd, _, _, _, hyear', _,
      _, _, htt, _⟩ := parseDateChars_present_fields u.toList t ht
    rw [matchDialect_modern _ hu] at hd
    cases hd
    rw [show modernLayout.nyear = 6 from rfl] at hyear' htt
    rw [hyear] at hyear'
    injection hyear' with hyear'
    subst hyear'
    rw [htt, hlen]
    rfl

/-- The claim C20 at `"06 Nov 094 08:49:37 GMT"`, which gives what
`"06 Nov 1994 08:49:37 GMT"` gives; `100` gives the year 2000, and `0999` the
year 999. -/
theorem parseDate_year_digits_witness :
    parseDate "06 Nov 094 08:49:37 GMT" = parseDate "06 Nov 1994 08:49:37 GMT" ∧
    parseDate "06 Nov 094 08:49:37 GMT" =
      .ok (some ⟨⟨1994, 11, 6⟩, ⟨8, 49, 37⟩, .UTC⟩) ∧
    parseDate "06 Nov 100 08:49:37 GMT" =
      .ok (some ⟨⟨2000, 11, 6⟩, ⟨8, 49, 37⟩, .UTC⟩) ∧
    parseDate "06 Nov 0999 08:49:37 GMT" =
      .ok (some ⟨⟨999, 11, 6⟩, ⟨8, 49, 37⟩, .UTC⟩) :=
  ⟨(parseDate_year_digits "06 Nov 094 08:49:37 GMT" "06 Nov 1994 08:49:37 GMT"
      ["06 Nov 094 08:49:37 GMT".toList, [], "06".toList, " ".toList, "Nov".toList,
        " ".toList, "094".toList, "08".toList, "49".toList, "37".toList, "GMT".toList]
      ["06 Nov 1994 08:49:37 GMT".toList, [], "06".toList, " ".toList, "Nov".toList,
        " ".toList, "1994".toList, "08".toList, "49".toList, "37".toList, "GMT".toList]
      94 (by decide) (by decide) (by decide) (by decide) (by decide) (by decide)
      (by decide)).1,
    by decide, by decide, by decide⟩

end Rss
